import Mathlib

/-!
# Verification of the CPET data-processing pipeline

Shallow embedding of the core data-cleaning / smoothing / metrics functions of
`src/hooks/useDataProcessor.ts` (a cardiopulmonary exercise-testing analysis
tool).  JavaScript numbers are modelled as exact rationals (`ℚ`); `null` is
modelled as `Option.none`; the JS `Map` used for the audit log is modelled as
an association list with JS-`Map` set/get/delete semantics.

The one non-algebraic operation in the source is `Math.sqrt` inside the
3-standard-deviation outlier band.  The source's test
`v < mean - 3*sd || v > mean + 3*sd` (with `sd = sqrt variance`) is, in exact
arithmetic, equivalent to `(v - mean)^2 > 9 * variance`, which is how the
band test is expressed here (this keeps every definition executable and
decidable).  The human-readable reason strings of the source are modelled by
an inductive `Reason` carrying exactly the data interpolated into the string
(stage index, mean, variance); `toFixed(2)` formatting is display-only.
-/

attribute [local semireducible] Rat.add Rat.mul Rat.inv Rat.sub

set_option maxRecDepth 100000

/-- The six primary channels that undergo outlier detection
(`OUTLIER_COLS` in the source). -/
inductive Channel
  | vo2
  | vco2
  | ve
  | hr
  | vt
  | bf
deriving DecidableEq, Repr

/-- One sampled row (`ProcessedDataRow` in the source): a time label, a
numeric time, the six primary channels, and the derived channels.  Channels
are `Option ℚ`, `none` playing the role of `null`. -/
structure Row where
  t : String
  timeInSeconds : ℚ
  vo2 : Option ℚ := none
  vco2 : Option ℚ := none
  ve : Option ℚ := none
  hr : Option ℚ := none
  vt : Option ℚ := none
  bf : Option ℚ := none
  vo2kg : Option ℚ := none
  vo2hr : Option ℚ := none
  veVo2 : Option ℚ := none
  veVco2 : Option ℚ := none
  rer : Option ℚ := none
  vdvt : Option ℚ := none
deriving DecidableEq, Repr

/-- Read a primary channel of a row (`row[col]` in the source). -/
def Row.get (r : Row) : Channel → Option ℚ
  | .vo2 => r.vo2
  | .vco2 => r.vco2
  | .ve => r.ve
  | .hr => r.hr
  | .vt => r.vt
  | .bf => r.bf

/-- Write a primary channel of a row (`row[col] = v` in the source). -/
def Row.set (r : Row) : Channel → Option ℚ → Row
  | .vo2, v => { r with vo2 := v }
  | .vco2, v => { r with vco2 := v }
  | .ve, v => { r with ve := v }
  | .hr, v => { r with hr := v }
  | .vt, v => { r with vt := v }
  | .bf, v => { r with bf := v }

/-- A row with every channel null; used only as the out-of-bounds default of
list lookups that the source never actually performs. -/
def defaultRow : Row := { t := "", timeInSeconds := 0 }

instance : Inhabited Row := ⟨defaultRow⟩

/-- Source function recalculateDerivedMetrics: recompute every derived channel
from the primary channels and the body weight. -/
def recalculateDerivedMetrics (row : Row) (bodyWeight : ℚ) : Row :=
  let vo2 := row.vo2
  let vco2 := row.vco2
  let ve := row.ve
  let hr := row.hr
  { row with
    vo2kg := match vo2 with
      | some v => if bodyWeight > 0 then some (v * 1000 / bodyWeight) else none
      | none => none
    vo2hr := match vo2, hr with
      | some v, some h => if h > 0 then some (v * 1000 / h) else none
      | _, _ => none
    veVo2 := match ve, vo2 with
      | some e, some v => if v > 0 then some (e / v) else none
      | _, _ => none
    veVco2 := match ve, vco2 with
      | some e, some c => if c > 0 then some (e / c) else none
      | _, _ => none
    rer := match vco2, vo2 with
      | some c, some v => if v > 0 then some (c / v) else none
      | _, _ => none
    vdvt := match vco2, vo2 with
      | some c, some v => if v > 0 then some (max 0 (25/100 * (c / v) - 5/100)) else none
      | _, _ => none }

/-- The audit-log action (REMOVED or INTERPOLATED in the source). -/
inductive AuditAction
  | removed
  | interpolated
deriving DecidableEq, Repr

/-- The data carried by the source's human-readable `reason` strings. -/
inductive Reason
  /-- `阶段 i: 3SD规则 (μ=mean, SD=sqrt variance)` — 1-based stage index,
  the stage/channel mean and population variance. -/
  | threeSD (stageIdx : Nat) (mean variance : ℚ)
  /-- `阶段 i: 超出正常生理范围 (≤0 或 >250bpm)`. -/
  | hrRange (stageIdx : Nat)
  /-- `阶段 i: 孤立心率激增 (+d bpm), 但V'O2/V'E未同步增加`. -/
  | hrSpike (stageIdx : Nat) (increase : ℚ)
deriving DecidableEq, Repr

/-- One audit-log record (`AuditLogEntry`). -/
structure AuditLogEntry where
  time : String
  column : Channel
  originalValue : ℚ
  reason : Reason
  action : AuditAction
  newValue : Option ℚ := none
deriving DecidableEq, Repr

/-- The audit map key: the source uses the string `` `${time}-${col}` ``;
since no channel name contains `-`, that string determines the
`(time, channel)` pair, modelled here directly as the pair. -/
abbrev AuditKey := String × Channel

/-- The audit log as built by the source: a JS `Map` keyed by time+channel,
modelled as an association list in insertion order. -/
abbrev AuditMap := List (AuditKey × AuditLogEntry)

/-- JS semantics of `map.set k v`: replace in place when the key is present,
otherwise append.  (A JS `Map` never holds a key twice; on the nodup-key
maps the pipeline builds, replacing the first occurrence is that
semantics.) -/
def mapSet : AuditMap → AuditKey → AuditLogEntry → AuditMap
  | [], k, v => [(k, v)]
  | p :: rest, k, v => if p.1 = k then (k, v) :: rest else p :: mapSet rest k v

/-- JS semantics of `map.get k`. -/
def mapGet (m : AuditMap) (k : AuditKey) : Option AuditLogEntry :=
  (m.find? (fun p => p.1 = k)).map (·.2)

/-- JS semantics of `map.delete k`. -/
def mapDelete (m : AuditMap) (k : AuditKey) : AuditMap :=
  m.filter (fun p => ¬ p.1 = k)

/-- Source record CleaningStats. -/
structure CleaningStats where
  outliersRemoved : ℤ
  pointsInterpolated : ℤ
deriving DecidableEq, Repr

/-- Source constant STAGE_ROWS: the fixed row count of a cleaning stage. -/
def STAGE_ROWS : Nat := 18

/-- The column list `OUTLIER_COLS` in source order. -/
def OUTLIER_COLS : List Channel := [.vo2, .vco2, .ve, .hr, .vt, .bf]

/-- Mean as the source computes it: sum of the values divided by the count. -/
def listMean (xs : List ℚ) : ℚ := xs.sum / xs.length

/-- Population variance `values.map(x=>(x-mean)^2).reduce(+)/values.length`;
the source takes its square root as `stdDev`. -/
def popVariance (xs : List ℚ) : ℚ :=
  (xs.map (fun x => (x - listMean xs) ^ 2)).sum / xs.length

/-- The source's band test `v < mean-3*sd || v > mean+3*sd` with
`sd = sqrt variance`, expressed squared (exact-arithmetic equivalent):
`(v-mean)^2 > 9*variance`. -/
def isOutlier (mean variance v : ℚ) : Bool :=
  (v - mean) ^ 2 > 9 * variance

/-- The state threaded through the detection loops: the (mutated) stage rows,
the audit map, and the running `outliersRemoved` counter. -/
abbrev DetectState := List Row × AuditMap × ℤ

/-- Body of the 3SD scan loop for one index `j` of the stage
(`useDataProcessor.ts` lines 307–322): null the value and log a REMOVED
entry when it falls outside the precomputed band. -/
def scanStep (stageIdx : Nat) (col : Channel) (mean variance : ℚ)
    (st : DetectState) (j : Nat) : DetectState :=
  let (stage, audit, removed) := st
  match stage[j]? with
  | none => (stage, audit, removed)
  | some row =>
    match row.get col with
    | none => (stage, audit, removed)
    | some x =>
      if isOutlier mean variance x then
        (stage.set j (row.set col none),
         mapSet audit (row.t, col)
           { time := row.t, column := col, originalValue := x,
             reason := .threeSD stageIdx mean variance, action := .removed },
         removed + 1)
      else (stage, audit, removed)

/-- The per-stage, per-channel 3SD pass (lines 298–323): statistics over the
valid values of the stage rows after the first 3; scan indices `3...` of the
stage when at least 2 valid values exist. -/
def detectCol (stageIdx : Nat) (col : Channel) (st : DetectState) : DetectState :=
  let (stage, audit, removed) := st
  let values := (stage.drop 3).filterMap (fun r => r.get col)
  if values.length < 2 then (stage, audit, removed)
  else
    (List.range' 3 (stage.length - 3)).foldl
      (scanStep stageIdx col (listMean values) (popVariance values))
      (stage, audit, removed)

/-- Body of the heart-rate secondary pass for one index `j` of the stage
(lines 325–356). -/
def hrStep (stageIdx : Nat) (st : DetectState) (j : Nat) : DetectState :=
  let (stage, audit, removed) := st
  match stage[j]? with
  | none => (stage, audit, removed)
  | some row =>
    match row.hr with
    | none => (stage, audit, removed)
    | some h =>
      let reason : Option Reason :=
        if h ≤ 0 ∨ h > 250 then some (.hrRange stageIdx)
        else if j > 0 then
          match stage[j-1]? with
          | none => none
          | some prevRow =>
            match prevRow.hr, row.vo2, prevRow.vo2, row.ve, prevRow.ve with
            | some ph, some cv, some pv, some cve, some pve =>
              if h - ph > 20 ∧ cv ≤ pv ∧ cve ≤ pve then
                some (.hrSpike stageIdx (h - ph))
              else none
            | _, _, _, _, _ => none
        else none
      match reason with
      | some rsn =>
        (stage.set j (row.set .hr none),
         mapSet audit (row.t, .hr)
           { time := row.t, column := .hr, originalValue := h,
             reason := rsn, action := .removed },
         removed + 1)
      | none => (stage, audit, removed)

/-- Process one fixed-row-count stage (loop body, lines 291–359): slice the
stage out, skip it entirely when it is the final partial stage, otherwise run
the 3SD pass per channel then the heart-rate pass, and splice the mutated
stage back. -/
def processStage (numStages : Nat) (acc : List Row × AuditMap × ℤ) (i : Nat) :
    List Row × AuditMap × ℤ :=
  let (data, audit, removed) := acc
  let start := i * STAGE_ROWS
  let stop := min ((i + 1) * STAGE_ROWS) data.length
  let stage := (data.drop start).take (stop - start)
  if stage.length < STAGE_ROWS ∧ i = numStages - 1 then acc
  else
    let st1 := OUTLIER_COLS.foldl (fun s c => detectCol (i + 1) c s) (stage, audit, removed)
    let st2 := (List.range st1.1.length).foldl (hrStep (i + 1)) st1
    (data.take start ++ st2.1 ++ data.drop (start + stage.length), st2.2.1, st2.2.2)

/-- The whole outlier-detection phase of `cleanAndInterpolateData`
(lines 288–359): `Math.ceil(len/18)` stages processed in order. -/
def detectPhase (data : List Row) : List Row × AuditMap × ℤ :=
  let numStages := (data.length + (STAGE_ROWS - 1)) / STAGE_ROWS
  (List.range numStages).foldl (processStage numStages) (data, [], 0)

/-- State threaded through interpolation: data, audit map, `outliersRemoved`,
`pointsInterpolated`. -/
abbrev InterpState := List Row × AuditMap × ℤ × ℤ

/-- Backward neighbor search (lines 367–369): the largest `j` in `[lo, i)`
whose channel value is non-null. -/
def findPrev (data : List Row) (col : Channel) (lo i : Nat) : Option Nat :=
  ((List.range' lo (i - lo)).reverse).find? (fun j => ((data[j]?.getD defaultRow).get col).isSome)

/-- Forward neighbor search (lines 371–373): the smallest `j` in `(i, hi)`
whose channel value is non-null. -/
def findNext (data : List Row) (col : Channel) (i hi : Nat) : Option Nat :=
  (List.range' (i + 1) (hi - (i + 1))).find? (fun j => ((data[j]?.getD defaultRow).get col).isSome)

/-- Body of the interpolation loop for one index `i` of one channel
(lines 362–403): fill a null from in-stage neighbors at gap ≤ 3, with the
no-op-reversal / upgrade / silent-fill trichotomy on the audit entry. -/
def interpStep (col : Channel) (st : InterpState) (i : Nat) : InterpState :=
  let (data, audit, removed, interp) := st
  match data[i]? with
  | none => st
  | some row =>
    match row.get col with
    | some _ => st
    | none =>
      let stageIdx := i / STAGE_ROWS
      let lo := stageIdx * STAGE_ROWS
      let hi := min ((stageIdx + 1) * STAGE_ROWS) data.length
      match findPrev data col lo i, findNext data col i hi with
      | some p, some n =>
        if n - p ≤ 3 then
          match (data[p]?.getD defaultRow).get col, (data[n]?.getD defaultRow).get col with
          | some pv, some nv =>
            let iv := pv + (nv - pv) * (((i : ℚ) - p) / ((n : ℚ) - p))
            match mapGet audit (row.t, col) with
            | some e =>
              if |e.originalValue - iv| < 1 / 1000000 then
                (data.set i (row.set col (some e.originalValue)),
                 mapDelete audit (row.t, col), removed - 1, interp)
              else
                (data.set i (row.set col (some iv)),
                 mapSet audit (row.t, col)
                   { e with action := .interpolated, newValue := some iv },
                 removed, interp + 1)
            | none => (data.set i (row.set col (some iv)), audit, removed, interp)
          | _, _ => st
        else st
      | _, _ => st

/-- The interpolation phase (lines 361–404): for each channel, scan every
index of the series. -/
def interpPhase (st : InterpState) : InterpState :=
  OUTLIER_COLS.foldl (fun s c => (List.range s.1.length).foldl (interpStep c) s) st

/-- Source function cleanAndInterpolateData (lines 282–412): detection, interpolation, then
derived-metric recomputation.  The source finally sorts the audit entries by
time string for display; the order of the returned log is irrelevant to every
property proved below, so the insertion-ordered entries are returned. -/
def cleanAndInterpolateData (data : List Row) (bodyWeight : ℚ) :
    List Row × List AuditLogEntry × CleaningStats :=
  let d := detectPhase data
  let st := interpPhase (d.1, d.2.1, d.2.2, 0)
  (st.1.map (recalculateDerivedMetrics · bodyWeight),
   st.2.1.map (·.2),
   { outliersRemoved := st.2.2.1, pointsInterpolated := st.2.2.2 })

/-- The channels smoothed by `applySmoothing` (`colsToSmooth`, lines 420). -/
def SMOOTH_COLS : List Channel := [.vo2, .vco2, .ve, .hr, .vt, .bf]

/-- The smoothed row at index `i ≥ 2`: each smooth channel becomes the
three-point mean of the *input* rows `i-2, i-1, i` when all three values are
non-null, and null otherwise (lines 421–432); all other fields are kept. -/
def smoothRowAt (data : List Row) (i : Nat) : Row :=
  let row := data[i]?.getD defaultRow
  if i < 2 then row
  else
    let r1 := data[i-2]?.getD defaultRow
    let r2 := data[i-1]?.getD defaultRow
    SMOOTH_COLS.foldl (fun acc c =>
      acc.set c (match r1.get c, r2.get c, row.get c with
        | some a, some b, some d => some ((a + b + d) / 3)
        | _, _, _ => none)) row

/-- Source function applySmoothing (lines 414–436): deep copy for fewer than 3 rows
(returned *before* the derived-metric recomputation), otherwise the
three-point moving average followed by derived-metric recomputation on every
row. -/
def applySmoothing (data : List Row) (bodyWeight : ℚ) : List Row :=
  if data.length < 3 then data
  else
    ((List.range data.length).map (smoothRowAt data)).map
      (recalculateDerivedMetrics · bodyWeight)

/-- Source record PlateauStageSummary. -/
structure PlateauStageSummary where
  stage : Nat
  duration : ℚ
  avgVo2 : ℚ
  deltaVo2 : Option ℚ
  isPartial : Bool
deriving DecidableEq, Repr

/-- A fixed-duration metrics stage `{startTime, endTime}`. -/
structure StageWindow where
  startTime : ℚ
  endTime : ℚ
deriving DecidableEq, Repr

/-- Source record KeyMetrics.  The source's early return for an empty series omits the
optional fields, modelled as `none` / `[]`. -/
structure KeyMetrics where
  vo2max : ℚ
  vo2maxKg : ℚ
  vemax : ℚ
  hrmax : ℚ
  rermax : ℚ
  plateauReached : Bool
  isPeak : Bool
  plateauTime : Option String := none
  plateauComparison : Option (ℚ × ℚ) := none
  plateauStageSummary : List PlateauStageSummary := []
deriving DecidableEq, Repr

/-- Maximum of the list, as `Math.max(...xs)` when non-empty, else the source's `0`
fallback. -/
def maxOrZero (xs : List ℚ) : ℚ :=
  match xs with
  | [] => 0
  | x :: rest => rest.foldl max x

/-- Source constant STAGE_DURATION_SECONDS. -/
def STAGE_DURATION_SECONDS : ℚ := 180

/-- The fixed-duration stage list (lines 460–473): `Math.ceil(total/180)`
windows `[i*180, min((i+1)*180, total))`, keeping only those with
`endTime > startTime`. -/
def buildStages (totalDuration : ℚ) : List StageWindow :=
  let numStages := (⌈totalDuration / STAGE_DURATION_SECONDS⌉ : ℤ).toNat
  (List.range numStages).filterMap (fun (i : Nat) =>
    let s := (i : ℚ) * STAGE_DURATION_SECONDS
    let e := min (((i : ℚ) + 1) * STAGE_DURATION_SECONDS) totalDuration
    if e > s then some ⟨s, e⟩ else none)

/-- One iteration of the `stages.map` building a stage summary
(lines 477–509): `idx` is the 0-based stage index, `prevAvg` the mutable
`previousAvgVo2` of the source. -/
def stageSummaryAt (data : List Row) (total : Nat) (idx : Nat) (prevAvg : ℚ)
    (st : StageWindow) : PlateauStageSummary :=
  let stageData := data.filter (fun r =>
    st.startTime ≤ r.timeInSeconds ∧ r.timeInSeconds < st.endTime)
  let actualDuration := st.endTime - st.startTime
  let isLastStage := idx = total - 1
  let avgPartial : ℚ × Bool :=
    if stageData.length > 0 then
      let valsPartial : List (Option ℚ) × Bool :=
        if isLastStage ∧ actualDuration < STAGE_DURATION_SECONDS then
          if actualDuration > 30 then
            ((stageData.filter (fun r => r.timeInSeconds ≥ st.endTime - 30)).map Row.vo2,
             false)
          else (stageData.map Row.vo2, true)
        else
          ((data.filter (fun r =>
              st.endTime - 30 ≤ r.timeInSeconds ∧ r.timeInSeconds < st.endTime)).map Row.vo2,
           false)
      let validVals := valsPartial.1.filterMap id
      (if validVals.length > 0 then listMean validVals else 0, valsPartial.2)
    else (0, false)
  let avgVo2 := avgPartial.1
  let deltaVo2 : Option ℚ :=
    if idx > 0 ∧ avgVo2 > 0 ∧ prevAvg > 0 then some (avgVo2 - prevAvg) else none
  { stage := idx + 1, duration := actualDuration, avgVo2 := avgVo2,
    deltaVo2 := deltaVo2, isPartial := avgPartial.2 }

/-- The `stages.map` of lines 477–509, with the `previousAvgVo2` mutable
variable made an explicit accumulator. -/
def stageSummaries (data : List Row) (total : Nat) :
    Nat → ℚ → List StageWindow → List PlateauStageSummary
  | _, _, [] => []
  | idx, prevAvg, st :: rest =>
    let s := stageSummaryAt data total idx prevAvg st
    s :: stageSummaries data total (idx + 1) s.avgVo2 rest

/-- The plateau decision of lines 512–524: reached iff at least 2 summaries
and the last delta below 0.15; on success also the plateau time label (the
first row at or after the last stage start, with the JS falsy-string
fallback to the final row label) and the last two stage averages. -/
def plateauDecision (data : List Row) (stages : List StageWindow)
    (summary : List PlateauStageSummary) :
    Bool × Option String × Option (ℚ × ℚ) :=
  if summary.length ≥ 2 then
    let lastInfo := (summary.getLast?).getD ⟨0, 0, 0, none, false⟩
    match lastInfo.deltaVo2 with
    | some d =>
      if d < 15/100 then
        let lastStart := ((stages.getLast?).getD ⟨0, 0⟩).startTime
        let pt : String :=
          match data.find? (fun r => r.timeInSeconds ≥ lastStart) with
          | some r => if r.t = "" then ((data.getLast?).getD defaultRow).t else r.t
          | none => ((data.getLast?).getD defaultRow).t
        (true, some pt,
         some ((summary[summary.length - 2]?.getD ⟨0, 0, 0, none, false⟩).avgVo2,
               lastInfo.avgVo2))
      else (false, none, none)
    | none => (false, none, none)
  else (false, none, none)

/-- Source function calculateKeyMetricsForData (lines 438–534). -/
def calculateKeyMetricsForData (data : List Row) : KeyMetrics :=
  if data = [] then
    { vo2max := 0, vo2maxKg := 0, vemax := 0, hrmax := 0, rermax := 0,
      plateauReached := false, isPeak := true }
  else
    let vo2max := maxOrZero (data.filterMap Row.vo2)
    let vo2maxKg := maxOrZero (data.filterMap Row.vo2kg)
    let vemax := maxOrZero (data.filterMap Row.ve)
    let hrmax := maxOrZero (data.filterMap Row.hr)
    let rermax := maxOrZero (data.filterMap Row.rer)
    let totalDuration := ((data.getLast?).getD defaultRow).timeInSeconds
    let stages := buildStages totalDuration
    let summary := stageSummaries data stages.length 0 0 stages
    let plateau := plateauDecision data stages summary
    { vo2max := vo2max, vo2maxKg := vo2maxKg, vemax := vemax, hrmax := hrmax,
      rermax := rermax,
      plateauReached := plateau.1, isPeak := ! plateau.1,
      plateauTime := plateau.2.1, plateauComparison := plateau.2.2,
      plateauStageSummary := summary }

/-- A percentile-extracted row: the copied data row annotated with its
percentage label (the source's extra `'VO2_%max': "<i>%"` field, kept here
as the number `i`). -/
structure PercRow where
  pct : Nat
  row : Row
deriving DecidableEq, Repr

/-- The percentage steps `10, 20, ..., 100` of the extractor's loop. -/
def PCT_STEPS : List Nat := [10, 20, 30, 40, 50, 60, 70, 80, 90, 100]

/-- The extractor's row test: a non-null `V'O2` at or above the threshold. -/
def vo2AtLeast (threshold : ℚ) (r : Row) : Bool :=
  match r.vo2 with
  | some v => v ≥ threshold
  | none => false

/-- The loop body of `extractPercentageDataForMetrics` (lines 542–553),
with the `result` list and the `seenPercentages` set as explicit state:
`findIndex` locates the first row at or above the threshold and the row at
that index is copied out with its percentage label. -/
def pctStep (data : List Row) (vo2max : ℚ) (st : List PercRow × List Nat)
    (i : Nat) : List PercRow × List Nat :=
  let threshold := vo2max * ((i : ℚ) / 100)
  match data.findIdx? (vo2AtLeast threshold) with
  | some idx =>
    if i ∈ st.2 then st
    else (st.1 ++ [⟨i, data[idx]?.getD defaultRow⟩], st.2 ++ [i])
  | none => st

/-- Source function extractPercentageDataForMetrics (lines 536–555). -/
def extractPercentageDataForMetrics (data : List Row) (metrics : KeyMetrics) :
    List PercRow :=
  if data = [] then []
  else (PCT_STEPS.foldl (pctStep data metrics.vo2max) ([], [])).1

/-- Source record AucResult. -/
structure AucResult where
  value : ℚ
  startTime : ℚ
  endTime : ℚ
  startVo2 : ℚ
  endVo2 : ℚ
deriving DecidableEq, Repr

/-- The row test of the backward scan of lines 621–629: a non-null `V'O2`
at or below the bound. -/
def vo2WithinEnd (data : List Row) (bound : ℚ) (i : Nat) : Bool :=
  match (data[i]?.getD defaultRow).vo2 with
  | some v => v ≤ bound
  | none => false

/-- The backward scan of lines 621–629: the largest index whose `V'O2` is a
number `≤ bound`. -/
def findLastLe (data : List Row) (bound : ℚ) : Option Nat :=
  ((List.range data.length).reverse).find? (vo2WithinEnd data bound)

/-- The trapezoid accumulation loop of lines 633–646 over pair indices
`[s, e)`: each adjacent pair with both `V'O2` values valid contributes
`(v₁+v₂)/2 * Δt/60`. -/
def aucSum (data : List Row) (s e : Nat) : ℚ :=
  ((List.range' s (e - s)).map (fun i =>
    let r1 := data[i]?.getD defaultRow
    let r2 := data[i+1]?.getD defaultRow
    match r1.vo2, r2.vo2 with
    | some v1, some v2 => (v1 + v2) / 2 * ((r2.timeInSeconds - r1.timeInSeconds) / 60)
    | _, _ => 0)).sum

/-- Source function calculateAuc (lines 615–649). -/
def calculateAuc (data : List Row) (vo2max startPercent endPercent : ℚ) :
    Option AucResult :=
  let startVo2 := vo2max * (startPercent / 100)
  let endVo2 := vo2max * (endPercent / 100)
  let startIndex := data.findIdx? (vo2AtLeast startVo2)
  let endIndex := findLastLe data endVo2
  match startIndex, endIndex with
  | some s, some e =>
    if s ≥ e then none
    else some
      { value := aucSum data s e,
        startTime := (data[s]?.getD defaultRow).timeInSeconds,
        endTime := (data[e]?.getD defaultRow).timeInSeconds,
        startVo2 := startVo2, endVo2 := endVo2 }
  | _, _ => none



/-! ## Basic lemmas about the audit map -/

/-- The keys of an audit map. -/
def auditKeys (m : AuditMap) : List AuditKey := m.map (·.1)

/-- An audit map with pairwise-distinct keys — the invariant of any JS
`Map`. -/
def NodupKeys (m : AuditMap) : Prop := (auditKeys m).Nodup

theorem mapGet_nil (k : AuditKey) : mapGet [] k = none := rfl

theorem mapGet_cons (p : AuditKey × AuditLogEntry) (m : AuditMap) (k : AuditKey) :
    mapGet (p :: m) k = if p.1 = k then some p.2 else mapGet m k := by
  simp only [mapGet, List.find?_cons]
  by_cases h : p.1 = k
  · simp [h]
  · simp [h]

theorem mapGet_set_self (m : AuditMap) (k : AuditKey) (v : AuditLogEntry) :
    mapGet (mapSet m k v) k = some v := by
  induction m with
  | nil => simp [mapSet, mapGet_cons, mapGet_nil]
  | cons p rest ih =>
    by_cases h : p.1 = k
    · simp [mapSet, h, mapGet_cons]
    · simp [mapSet, h, mapGet_cons, ih]

theorem mapGet_set_ne (m : AuditMap) (k k' : AuditKey) (v : AuditLogEntry)
    (h : k' ≠ k) : mapGet (mapSet m k v) k' = mapGet m k' := by
  induction m with
  | nil => simp [mapSet, mapGet_cons, mapGet_nil, Ne.symm h]
  | cons p rest ih =>
    by_cases hp : p.1 = k
    · simp [mapSet, hp, mapGet_cons, Ne.symm h]
    · simp [mapSet, hp, mapGet_cons, ih]

theorem length_mapSet (m : AuditMap) (k : AuditKey) (v : AuditLogEntry) :
    (mapSet m k v).length =
      if (mapGet m k).isSome then m.length else m.length + 1 := by
  induction m with
  | nil => simp [mapSet, mapGet_nil]
  | cons p rest ih =>
    by_cases hp : p.1 = k
    · simp [mapSet, hp, mapGet_cons]
    · simp only [mapSet, hp, if_false, List.length_cons, ih, mapGet_cons]
      by_cases hg : (mapGet rest k).isSome
      · simp [hg, hp]
      · simp [hg, hp]

theorem mem_auditKeys_mapSet (m : AuditMap) (k a : AuditKey) (v : AuditLogEntry) :
    a ∈ auditKeys (mapSet m k v) ↔ a = k ∨ a ∈ auditKeys m := by
  induction m with
  | nil => simp [mapSet, auditKeys]
  | cons p rest ih =>
    by_cases hp : p.1 = k
    · simp only [mapSet, hp, if_true, auditKeys, List.map_cons, List.mem_cons, hp]
      tauto
    · simp only [mapSet, hp, if_false, auditKeys, List.map_cons, List.mem_cons] at ih ⊢
      rw [ih]
      tauto

theorem nodupKeys_mapSet (m : AuditMap) (k : AuditKey) (v : AuditLogEntry)
    (h : NodupKeys m) : NodupKeys (mapSet m k v) := by
  induction m with
  | nil => simp [mapSet, NodupKeys, auditKeys]
  | cons p rest ih =>
    simp only [NodupKeys, auditKeys, List.map_cons, List.nodup_cons] at h
    by_cases hp : p.1 = k
    · simp only [NodupKeys, mapSet, hp, if_true, auditKeys, List.map_cons,
        List.nodup_cons]
      exact ⟨by rw [← hp]; exact h.1, h.2⟩
    · simp only [NodupKeys, mapSet, hp, if_false, auditKeys, List.map_cons,
        List.nodup_cons]
      refine ⟨fun hc => ?_, ih h.2⟩
      rcases (mem_auditKeys_mapSet rest k p.1 v).1 hc with rfl | hc
      · exact hp rfl
      · exact h.1 hc

theorem mapDelete_cons_of_eq (p : AuditKey × AuditLogEntry) (m : AuditMap)
    (k : AuditKey) (hp : p.1 = k) : mapDelete (p :: m) k = mapDelete m k := by
  simp [mapDelete, List.filter_cons, hp]

theorem mapDelete_cons_of_ne (p : AuditKey × AuditLogEntry) (m : AuditMap)
    (k : AuditKey) (hp : ¬ p.1 = k) : mapDelete (p :: m) k = p :: mapDelete m k := by
  simp [mapDelete, List.filter_cons, hp]

theorem mapGet_delete_self (m : AuditMap) (k : AuditKey) :
    mapGet (mapDelete m k) k = none := by
  induction m with
  | nil => rfl
  | cons p rest ih =>
    by_cases hp : p.1 = k
    · rw [mapDelete_cons_of_eq p rest k hp, ih]
    · rw [mapDelete_cons_of_ne p rest k hp, mapGet_cons, if_neg hp, ih]

theorem mapGet_delete_ne (m : AuditMap) (k k' : AuditKey) (h : k' ≠ k) :
    mapGet (mapDelete m k) k' = mapGet m k' := by
  induction m with
  | nil => rfl
  | cons p rest ih =>
    by_cases hp : p.1 = k
    · rw [mapDelete_cons_of_eq p rest k hp, ih, mapGet_cons,
        if_neg (fun hc => h (by rw [← hc]; exact hp))]
    · rw [mapDelete_cons_of_ne p rest k hp, mapGet_cons, mapGet_cons, ih]

theorem nodupKeys_mapDelete (m : AuditMap) (k : AuditKey) (h : NodupKeys m) :
    NodupKeys (mapDelete m k) := by
  unfold NodupKeys auditKeys at h ⊢
  have hsub : (mapDelete m k).Sublist m := List.filter_sublist m
  exact (hsub.map (fun p => p.1)).nodup h

theorem length_mapDelete (m : AuditMap) (k : AuditKey) (h : NodupKeys m)
    (hmem : (mapGet m k).isSome) :
    ((mapDelete m k).length : ℤ) = (m.length : ℤ) - 1 := by
  induction m with
  | nil => simp [mapGet_nil] at hmem
  | cons p rest ih =>
    simp only [NodupKeys, auditKeys, List.map_cons, List.nodup_cons] at h
    by_cases hp : p.1 = k
    · have h2 : mapDelete rest k = rest := by
        apply List.filter_eq_self.2
        intro q hq
        have hqk : ¬ q.1 = k := fun hqk =>
          h.1 (by rw [hp, ← hqk]; exact List.mem_map_of_mem (fun x => x.1) hq)
        simp [hqk]
      rw [mapDelete_cons_of_eq p rest k hp, h2]
      simp only [List.length_cons]
      push_cast
      omega
    · have hmem2 : (mapGet rest k).isSome := by
        rw [mapGet_cons] at hmem
        simpa [hp] using hmem
      have hrec := ih h.2 hmem2
      rw [mapDelete_cons_of_ne p rest k hp]
      simp only [List.length_cons]
      push_cast at hrec ⊢
      omega

/-! ## Concrete inputs used by counterexamples and witnesses -/

/-- A row carrying only a time label, a time, and a single primary value on
the oxygen-uptake channel. -/
def mkRow (t : String) (ts : ℚ) (v : Option ℚ) : Row :=
  { t := t, timeInSeconds := ts, vo2 := v }

/-- A full 18-row stage whose first row holds the extreme value 1000 on the
oxygen-uptake channel while rows 1–17 hold the constant 2. -/
def stageHeadSpike : List Row :=
  mkRow "r00" 0 (some 1000) ::
    (List.range 17).map (fun i => mkRow (toString (i + 1)) ((i : ℚ) + 1) (some 2))

/-- A full 18-row stage, constant 2 on the oxygen-uptake channel except for
the single outlier 3 at index 10. -/
def stageOneOutlier : List Row :=
  (List.range 18).map (fun i =>
    mkRow (toString i) (i : ℚ) (if i = 10 then some 3 else some 2))

/-- An 8-row series (one partial stage) with the oxygen-uptake channel null
at indices 5 and 6 and valid neighbors at 4 and 7. -/
def gapSeries : List Row :=
  [mkRow "a0" 0 (some 2), mkRow "a1" 1 (some 2), mkRow "a2" 2 (some 2),
   mkRow "a3" 3 (some 2), mkRow "a4" 4 (some 2), mkRow "a5" 5 none,
   mkRow "a6" 6 none, mkRow "a7" 7 (some 3)]

/-- A single row whose stored derived RER value (5) disagrees with what
recomputation from its primaries would give (null, as VCO2 is null). -/
def staleDerivedRow : Row :=
  { t := "x", timeInSeconds := 0, vo2 := some 2, rer := some 5 }

/-- A one-row series: every percentage threshold of its own metrics is first
reached at that same single row. -/
def singleRowSeries : List Row := [mkRow "p" 0 (some 2)]

/-- A two-row series used against the AUC integrator: oxygen uptake 3 then
1, one minute apart. -/
def aucSeries : List Row := [mkRow "t0" 0 (some 3), mkRow "t1" 60 (some 1)]

/-! ## C1 — 3SD removal scan and the first 3 rows of a stage -/

/-- C1 counterexample.  In the 18-row stage `stageHeadSpike`, the
oxygen-uptake channel has 15 valid values among the rows after the first 3
(mean 2, variance 0), and the value 1000 at row 0 lies outside the 3-standard-
deviation band; the claim says such a value in the first 3 rows is nulled and
logged REMOVED, but `cleanAndInterpolateData` leaves it untouched and logs
nothing: the 3SD scan of the source starts at stage row 3. -/
theorem c1_first3_not_scanned :
    2 ≤ ((stageHeadSpike.drop 3).filterMap (fun r => r.get .vo2)).length ∧
    isOutlier (listMean ((stageHeadSpike.drop 3).filterMap (fun r => r.get .vo2)))
      (popVariance ((stageHeadSpike.drop 3).filterMap (fun r => r.get .vo2)))
      1000 = true ∧
    ((cleanAndInterpolateData stageHeadSpike 70).1[0]?.getD defaultRow).vo2
      = some 1000 ∧
    (cleanAndInterpolateData stageHeadSpike 70).2.1 = [] := by
  decide

/-! ## C2 — audit-count arithmetic -/

/-- C2 counterexample.  On `stageOneOutlier` the value 3 at index 10 is
removed by the 3SD rule and then interpolated (to 2, which differs from 3 by
more than 1e-6, so the entry is upgraded): the log then holds 0 REMOVED plus
1 INTERPOLATED entry, while the stats are outliersRemoved = 1 and
pointsInterpolated = 1 — the claimed equality 1 = 1 + 1 fails. -/
theorem c2_counts_not_additive :
    ¬ ((((cleanAndInterpolateData stageOneOutlier 70).2.1.filter
          (fun e => e.action = .removed)).length : ℤ) +
        (((cleanAndInterpolateData stageOneOutlier 70).2.1.filter
          (fun e => e.action = .interpolated)).length : ℤ)
        = (cleanAndInterpolateData stageOneOutlier 70).2.2.outliersRemoved
          + (cleanAndInterpolateData stageOneOutlier 70).2.2.pointsInterpolated) := by
  decide

/-! ## C5 — interpolation of a null that was never detector-rejected -/

/-- C5 counterexample.  On `gapSeries` the null at index 5 has in-stage
non-null neighbors at 4 (value 2) and 7 (value 3), gap 3 ≤ 3, and was never
rejected by the detector; the claim says an INTERPOLATED audit entry is
created for it, but the source fills the value (2 + (3-2)·(1/3) = 7/3)
*without* creating any audit entry: the returned log is empty. -/
theorem c5_no_new_entry_created :
    ((cleanAndInterpolateData gapSeries 70).1[5]?.getD defaultRow).vo2
        = some (7/3) ∧
    (cleanAndInterpolateData gapSeries 70).2.1 = [] := by
  decide

/-! ## C7 — smoothing of short series skips derived-metric recomputation -/

/-- C7 counterexample.  `applySmoothing` returns a series of fewer than 3
rows as-is, *without* the derived-channel recomputation the claim asserts
happens in all cases: the stale RER value 5 survives although recomputation
from the row's primaries (VCO2 null) would give null. -/
theorem c7_short_series_not_recomputed :
    applySmoothing [staleDerivedRow] 70 = [staleDerivedRow] ∧
    staleDerivedRow.rer = some 5 ∧
    (recalculateDerivedMetrics staleDerivedRow 70).rer = none := by
  decide

/-! ## C8 — the returned VO2 bounds are the requested thresholds -/

/-- C8 counterexample.  On `aucSeries` with vo2max 4 and the 50–100% range,
the bracket is rows 0..1 and the integral is (3+1)/2 · 1 = 2 liters; the
result's startVo2 is the *requested* threshold 2, not the VO2 value 3
actually achieved at the start row, contradicting the claim that the VO2
bounds returned are the actual bounds achieved (inset from the request). -/
theorem c8_vo2_bounds_are_requested :
    calculateAuc aucSeries 4 50 100
      = some { value := 2, startTime := 0, endTime := 60, startVo2 := 2, endVo2 := 4 } ∧
    (aucSeries[0]?.getD defaultRow).vo2 = some 3 ∧ (2 : ℚ) ≠ 3 := by
  decide

/-! ## C9 — percentile rows need not strictly increase in time -/

/-- C9 counterexample.  On the one-row series `singleRowSeries` with its own
metrics (vo2max 2), every percentage threshold is first reached at row 0, so
ten rows are emitted with pairwise-equal timeSeconds: the claimed *strict*
increase in timeSeconds fails (the percentage labels do strictly increase). -/
theorem c9_time_not_strictly_increasing :
    (extractPercentageDataForMetrics singleRowSeries
        (calculateKeyMetricsForData singleRowSeries)).length = 10 ∧
    ((extractPercentageDataForMetrics singleRowSeries
        (calculateKeyMetricsForData singleRowSeries))[0]?.getD
        (PercRow.mk 0 defaultRow)).row.timeInSeconds
      = ((extractPercentageDataForMetrics singleRowSeries
        (calculateKeyMetricsForData singleRowSeries))[1]?.getD
        (PercRow.mk 0 defaultRow)).row.timeInSeconds ∧
    ((extractPercentageDataForMetrics singleRowSeries
        (calculateKeyMetricsForData singleRowSeries))[0]?.getD
        (PercRow.mk 0 defaultRow)).pct
      < ((extractPercentageDataForMetrics singleRowSeries
        (calculateKeyMetricsForData singleRowSeries))[1]?.getD
        (PercRow.mk 0 defaultRow)).pct := by
  decide

/-! ## C4 — the no-op reversal rule -/

/-- C4.  During interpolation, when the null at index `i` has an audit entry
(a REMOVED one) under its time/channel key and the linearly interpolated
value is within 1e-6 of the entry's original value, the step writes the
original value back, deletes the entry, and decrements the outlier
counter by one, leaving the interpolation counter unchanged. -/
theorem c4_noop_reversal
    (col : Channel) (data : List Row) (audit : AuditMap) (removed interp : ℤ)
    (i p n : Nat) (row : Row) (pv nv : ℚ) (e : AuditLogEntry)
    (hrow : data[i]? = some row)
    (hnull : row.get col = none)
    (hp : findPrev data col (i / STAGE_ROWS * STAGE_ROWS) i = some p)
    (hn : findNext data col i (min ((i / STAGE_ROWS + 1) * STAGE_ROWS) data.length)
          = some n)
    (hgap : n - p ≤ 3)
    (hpv : (data[p]?.getD defaultRow).get col = some pv)
    (hnv : (data[n]?.getD defaultRow).get col = some nv)
    (he : mapGet audit (row.t, col) = some e)
    (hact : e.action = .removed)
    (hclose : |e.originalValue - (pv + (nv - pv) * (((i : ℚ) - p) / ((n : ℚ) - p)))|
              < 1 / 1000000) :
    interpStep col (data, audit, removed, interp) i
      = (data.set i (row.set col (some e.originalValue)),
         mapDelete audit (row.t, col), removed - 1, interp)
    ∧ mapGet (mapDelete audit (row.t, col)) (row.t, col) = none := by
  refine ⟨?_, mapGet_delete_self audit (row.t, col)⟩
  simp only [interpStep, hrow, hnull, hp, hn, hpv, hnv, he, if_pos hgap,
    if_pos hclose]

/-- Witness state for the step-level interpolation theorems: the middle row
is null on the oxygen-uptake channel with valid neighbors either side. -/
def wData : List Row :=
  [mkRow "w0" 0 (some 2), mkRow "w1" 1 none, mkRow "w2" 2 (some 2)]

/-- Witness audit map: the middle row of `wData` was REMOVED with original
value 2. -/
def wAudit : AuditMap :=
  [(("w1", Channel.vo2),
    { time := "w1", column := .vo2, originalValue := 2,
      reason := .threeSD 1 2 0, action := .removed })]

theorem c4_noop_reversal_witness :
    (wData[1]? = some (mkRow "w1" 1 none) ∧
     (mkRow "w1" 1 none).get .vo2 = none ∧
     findPrev wData .vo2 (1 / STAGE_ROWS * STAGE_ROWS) 1 = some 0 ∧
     findNext wData .vo2 1 (min ((1 / STAGE_ROWS + 1) * STAGE_ROWS) wData.length)
       = some 2 ∧
     2 - 0 ≤ 3 ∧
     (wData[0]?.getD defaultRow).get .vo2 = some 2 ∧
     (wData[2]?.getD defaultRow).get .vo2 = some 2 ∧
     mapGet wAudit ("w1", .vo2) = some
       { time := "w1", column := .vo2, originalValue := 2,
         reason := .threeSD 1 2 0, action := .removed } ∧
     |(2 : ℚ) - (2 + (2 - 2) * (((1 : ℚ) - 0) / ((2 : ℚ) - 0)))| < 1 / 1000000) ∧
    (interpStep .vo2 (wData, wAudit, 5, 7) 1
      = (wData.set 1 ((mkRow "w1" 1 none).set .vo2 (some 2)),
         mapDelete wAudit ("w1", .vo2), 5 - 1, 7)
     ∧ mapGet (mapDelete wAudit ("w1", .vo2)) ("w1", .vo2) = none) := by
  refine ⟨by decide, ?_⟩
  exact c4_noop_reversal .vo2 wData wAudit 5 7 1 0 2 (mkRow "w1" 1 none) 2 2
    { time := "w1", column := .vo2, originalValue := 2,
      reason := .threeSD 1 2 0, action := .removed }
    (by decide) (by decide) (by decide) (by decide) (by decide) (by decide)
    (by decide) (by decide) (by decide) (by decide)

/-- C5 (amended).  During interpolation, a null at index `i` whose nearest
non-null neighbors on both sides lie within the same fixed-row-count stage
with gap at most 3 is replaced by `prev + (next-prev)·(i-prevIndex)/gap`;
an existing audit entry whose original value differs from that interpolated
value by at least 1e-6 is upgraded to INTERPOLATED with the new value and
the interpolation counter is incremented; when the null has no audit entry
(it was not a prior detector rejection, e.g. originally missing from the
source file) the value is filled but *no* audit entry is created and no
counter changes. -/
theorem c5_interpolation_upgrade_or_silent_fill
    (col : Channel) (data : List Row) (audit : AuditMap) (removed interp : ℤ)
    (i p n : Nat) (row : Row) (pv nv : ℚ)
    (hrow : data[i]? = some row)
    (hnull : row.get col = none)
    (hp : findPrev data col (i / STAGE_ROWS * STAGE_ROWS) i = some p)
    (hn : findNext data col i (min ((i / STAGE_ROWS + 1) * STAGE_ROWS) data.length)
          = some n)
    (hgap : n - p ≤ 3)
    (hpv : (data[p]?.getD defaultRow).get col = some pv)
    (hnv : (data[n]?.getD defaultRow).get col = some nv) :
    (mapGet audit (row.t, col) = none →
      interpStep col (data, audit, removed, interp) i
        = (data.set i (row.set col
             (some (pv + (nv - pv) * (((i : ℚ) - p) / ((n : ℚ) - p))))),
           audit, removed, interp))
    ∧ (∀ e, mapGet audit (row.t, col) = some e →
        ¬ |e.originalValue - (pv + (nv - pv) * (((i : ℚ) - p) / ((n : ℚ) - p)))|
            < 1 / 1000000 →
        interpStep col (data, audit, removed, interp) i
          = (data.set i (row.set col
               (some (pv + (nv - pv) * (((i : ℚ) - p) / ((n : ℚ) - p))))),
             mapSet audit (row.t, col)
               { e with action := .interpolated,
                        newValue := some (pv + (nv - pv)
                          * (((i : ℚ) - p) / ((n : ℚ) - p))) },
             removed, interp + 1)) := by
  constructor
  · intro hnone
    simp only [interpStep, hrow, hnull, hp, hn, hpv, hnv, hnone, if_pos hgap]
  · intro e he hfar
    simp only [interpStep, hrow, hnull, hp, hn, hpv, hnv, he, if_pos hgap,
      if_neg hfar]

/-- Witness audit map for the upgrade branch: the middle row of `wData` was
REMOVED with original value 9 (far from the interpolated value 2). -/
def wAuditFar : AuditMap :=
  [(("w1", Channel.vo2),
    { time := "w1", column := .vo2, originalValue := 9,
      reason := .threeSD 1 2 0, action := .removed })]

theorem c5_interpolation_witness :
    (wData[1]? = some (mkRow "w1" 1 none) ∧
     (mkRow "w1" 1 none).get .vo2 = none ∧
     findPrev wData .vo2 (1 / STAGE_ROWS * STAGE_ROWS) 1 = some 0 ∧
     findNext wData .vo2 1 (min ((1 / STAGE_ROWS + 1) * STAGE_ROWS) wData.length)
       = some 2 ∧
     2 - 0 ≤ 3 ∧
     (wData[0]?.getD defaultRow).get .vo2 = some 2 ∧
     (wData[2]?.getD defaultRow).get .vo2 = some 2) ∧
    ((mapGet wAuditFar ("w1", .vo2) = none →
      interpStep .vo2 (wData, wAuditFar, 5, 7) 1
        = (wData.set 1 ((mkRow "w1" 1 none).set .vo2
             (some (2 + (2 - 2) * (((1 : ℚ) - 0) / ((2 : ℚ) - 0))))),
           wAuditFar, 5, 7))
    ∧ (∀ e, mapGet wAuditFar ("w1", .vo2) = some e →
        ¬ |e.originalValue - (2 + (2 - 2) * (((1 : ℚ) - 0) / ((2 : ℚ) - 0)))|
            < 1 / 1000000 →
        interpStep .vo2 (wData, wAuditFar, 5, 7) 1
          = (wData.set 1 ((mkRow "w1" 1 none).set .vo2
               (some (2 + (2 - 2) * (((1 : ℚ) - 0) / ((2 : ℚ) - 0))))),
             mapSet wAuditFar ("w1", .vo2)
               { e with action := .interpolated,
                        newValue := some (2 + (2 - 2)
                          * (((1 : ℚ) - 0) / ((2 : ℚ) - 0))) },
             5, 7 + 1))) := by
  refine ⟨by decide, ?_⟩
  exact c5_interpolation_upgrade_or_silent_fill .vo2 wData wAuditFar 5 7 1 0 2
    (mkRow "w1" 1 none) 2 2 (by decide) (by decide) (by decide) (by decide)
    (by decide) (by decide) (by decide)

/-! ## C7 — the three-point smoother -/

theorem Row.get_set (r : Row) (c c' : Channel) (v : Option ℚ) :
    (r.set c v).get c' = if c' = c then v else r.get c' := by
  cases c <;> cases c' <;> simp [Row.get, Row.set]

/-- Recomputing derived channels does not change any primary channel. -/
theorem recalc_get (r : Row) (w : ℚ) (c : Channel) :
    (recalculateDerivedMetrics r w).get c = r.get c := by
  cases c <;> simp [Row.get, recalculateDerivedMetrics]

/-- Derived-channel recomputation is idempotent. -/
theorem recalc_idem (r : Row) (w : ℚ) :
    recalculateDerivedMetrics (recalculateDerivedMetrics r w) w
      = recalculateDerivedMetrics r w := by
  simp [recalculateDerivedMetrics]

theorem smoothRowAt_get (data : List Row) (i : Nat) (h2 : 2 ≤ i) (c : Channel)
    (hc : c ∈ SMOOTH_COLS) :
    (smoothRowAt data i).get c
      = match (data[i-2]?.getD defaultRow).get c,
              (data[i-1]?.getD defaultRow).get c,
              (data[i]?.getD defaultRow).get c with
        | some a, some b, some d => some ((a + b + d) / 3)
        | _, _, _ => none := by
  unfold smoothRowAt
  rw [if_neg (by omega)]
  simp only [SMOOTH_COLS, List.foldl_cons, List.foldl_nil]
  fin_cases hc <;> simp [Row.get_set]

/-- C7 (amended).  For at least 3 rows, the smoother emits, for every
channel in the smoothed set, the three-point backward average of the *input*
values at indices ≥ 2 (null as soon as one contributor is null), keeps the
input values at indices 0 and 1, preserves the length, and every output row
has its derived channels recomputed (it is a fixed point of the
recomputation); a series of fewer than 3 rows is returned as an unmodified
copy — in that case *without* the derived-channel recomputation. -/
theorem c7_smoothing_characterization (data : List Row) (w : ℚ) (i : Nat)
    (c : Channel) (hc : c ∈ SMOOTH_COLS) (hi : i < data.length) :
    (data.length < 3 → applySmoothing data w = data)
    ∧ (3 ≤ data.length →
        (applySmoothing data w).length = data.length
        ∧ (2 ≤ i →
            ((applySmoothing data w)[i]?.getD defaultRow).get c
              = match (data[i-2]?.getD defaultRow).get c,
                      (data[i-1]?.getD defaultRow).get c,
                      (data[i]?.getD defaultRow).get c with
                | some a, some b, some d => some ((a + b + d) / 3)
                | _, _, _ => none)
        ∧ (i < 2 →
            ((applySmoothing data w)[i]?.getD defaultRow).get c
              = (data[i]?.getD defaultRow).get c)
        ∧ (applySmoothing data w)[i]?.getD defaultRow
            = recalculateDerivedMetrics
                ((applySmoothing data w)[i]?.getD defaultRow) w) := by
  constructor
  · intro h
    simp [applySmoothing, if_pos h]
  · intro h3
    have hnot : ¬ data.length < 3 := by omega
    have hout : (applySmoothing data w)[i]?
        = some (recalculateDerivedMetrics (smoothRowAt data i) w) := by
      simp [applySmoothing, if_neg hnot, List.getElem?_map,
        List.getElem?_range hi]
    have hlen : (applySmoothing data w).length = data.length := by
      simp [applySmoothing, if_neg hnot]
    refine ⟨hlen, ?_, ?_, ?_⟩
    · intro h2
      rw [hout]
      simp only [Option.getD_some]
      rw [recalc_get, smoothRowAt_get data i h2 c hc]
    · intro hlt
      rw [hout]
      simp only [Option.getD_some]
      rw [recalc_get]
      unfold smoothRowAt
      rw [if_pos hlt]
    · rw [hout]
      simp only [Option.getD_some]
      rw [recalc_idem]

/-- Concrete 3-row series for the C7 witness. -/
def wSmooth : List Row :=
  [mkRow "s0" 0 (some 1), mkRow "s1" 1 (some 2), mkRow "s2" 2 (some 3)]

theorem c7_smoothing_witness :
    (Channel.vo2 ∈ SMOOTH_COLS ∧ 2 < wSmooth.length) ∧
    ((wSmooth.length < 3 → applySmoothing wSmooth 70 = wSmooth)
    ∧ (3 ≤ wSmooth.length →
        (applySmoothing wSmooth 70).length = wSmooth.length
        ∧ (2 ≤ 2 →
            ((applySmoothing wSmooth 70)[2]?.getD defaultRow).get .vo2
              = match (wSmooth[2-2]?.getD defaultRow).get .vo2,
                      (wSmooth[2-1]?.getD defaultRow).get .vo2,
                      (wSmooth[2]?.getD defaultRow).get .vo2 with
                | some a, some b, some d => some ((a + b + d) / 3)
                | _, _, _ => none)
        ∧ (2 < 2 →
            ((applySmoothing wSmooth 70)[2]?.getD defaultRow).get .vo2
              = (wSmooth[2]?.getD defaultRow).get .vo2)
        ∧ (applySmoothing wSmooth 70)[2]?.getD defaultRow
            = recalculateDerivedMetrics
                ((applySmoothing wSmooth 70)[2]?.getD defaultRow) 70)) := by
  refine ⟨by decide, ?_⟩
  exact c7_smoothing_characterization wSmooth 70 2 .vo2 (by decide) (by decide)

/-! ## C10 — the final row is excluded from every stage average -/

/-- Every fixed-duration stage window ends no later than the total
duration it was built from. -/
theorem buildStages_endTime_le (td : ℚ) :
    ∀ st ∈ buildStages td, st.endTime ≤ td := by
  intro st hst
  simp only [buildStages, List.mem_filterMap] at hst
  obtain ⟨i, _, hi⟩ := hst
  by_cases hgt : min ((i + 1 : ℚ) * STAGE_DURATION_SECONDS) td > (i : ℚ) * STAGE_DURATION_SECONDS
  · rw [if_pos hgt] at hi
    cases hi
    exact min_le_right _ _
  · rw [if_neg hgt] at hi
    cases hi

theorem filter_append_single_congr (l : List Row) (a b : Row) (p : Row → Bool)
    (ha : p a = false) (hb : p b = false) :
    (l ++ [a]).filter p = (l ++ [b]).filter p := by
  simp [List.filter_append, ha, hb]

/-- Replacing the trailing row of a series by any row with the same
timestamp leaves every stage summary unchanged, provided every stage window
ends no later than that timestamp: the strict upper bound `time < endTime`
excludes both rows from every stage filter and every terminal-window
filter. -/
theorem stageSummaries_replace_last (dl : List Row) (a b : Row)
    (hab : b.timeInSeconds = a.timeInSeconds) (total : Nat)
    (stages : List StageWindow)
    (hend : ∀ st ∈ stages, st.endTime ≤ a.timeInSeconds) :
    ∀ (idx : Nat) (prev : ℚ),
      stageSummaries (dl ++ [a]) total idx prev stages
        = stageSummaries (dl ++ [b]) total idx prev stages := by
  induction stages with
  | nil => intro idx prev; rfl
  | cons st rest ih =>
    intro idx prev
    have hstend : st.endTime ≤ a.timeInSeconds := hend st (List.mem_cons_self st rest)
    have hmem : (fun r => decide (st.startTime ≤ r.timeInSeconds
        ∧ r.timeInSeconds < st.endTime)) a = false := by
      simp only [decide_eq_false_iff_not]
      rintro ⟨-, h2⟩
      linarith
    have hmem' : (fun r => decide (st.startTime ≤ r.timeInSeconds
        ∧ r.timeInSeconds < st.endTime)) b = false := by
      simp only [decide_eq_false_iff_not, hab]
      rintro ⟨-, h2⟩
      linarith
    have hwin : (fun r => decide (st.endTime - 30 ≤ r.timeInSeconds
        ∧ r.timeInSeconds < st.endTime)) a = false := by
      simp only [decide_eq_false_iff_not]
      rintro ⟨-, h2⟩
      linarith
    have hwin' : (fun r => decide (st.endTime - 30 ≤ r.timeInSeconds
        ∧ r.timeInSeconds < st.endTime)) b = false := by
      simp only [decide_eq_false_iff_not, hab]
      rintro ⟨-, h2⟩
      linarith
    have hsum : stageSummaryAt (dl ++ [a]) total idx prev st
        = stageSummaryAt (dl ++ [b]) total idx prev st := by
      unfold stageSummaryAt
      rw [filter_append_single_congr dl a b _ hmem hmem',
        filter_append_single_congr dl a b _ hwin hwin']
    show stageSummaryAt (dl ++ [a]) total idx prev st
        :: stageSummaries (dl ++ [a]) total (idx + 1)
             (stageSummaryAt (dl ++ [a]) total idx prev st).avgVo2 rest
      = _
    rw [hsum, ih (fun st hst => hend st (List.mem_cons_of_mem _ hst))]
    rfl

/-- C10.  For a non-empty series with positive total elapsed time, replacing
the final row (the one defining the total duration) by *any* row with the
same timestamp leaves every fixed-duration stage summary — in particular
every stage VO2 average — unchanged: the final row is excluded from every
stage's average because stage membership and the terminal-window filter use
the strict bound `timeInSeconds < endTime` and the last stage's endTime
equals the final row's timeInSeconds. -/
theorem c10_final_row_excluded_from_averages (data : List Row) (r' : Row)
    (hne : data ≠ [])
    (hpos : 0 < (data.getLast hne).timeInSeconds)
    (hts : r'.timeInSeconds = (data.getLast hne).timeInSeconds) :
    (calculateKeyMetricsForData (data.dropLast ++ [r'])).plateauStageSummary
      = (calculateKeyMetricsForData data).plateauStageSummary := by
  have hdata : data.dropLast ++ [data.getLast hne] = data :=
    List.dropLast_append_getLast hne
  have hne' : data.dropLast ++ [r'] ≠ [] := by
    intro h
    exact absurd (List.append_eq_nil.1 h).2 (by simp)
  have hlast : (data.dropLast ++ [r']).getLast? = some r' := by
    simp
  have hlast2 : data.getLast? = some (data.getLast hne) :=
    List.getLast?_eq_getLast data hne
  conv_rhs => rw [← hdata]
  unfold calculateKeyMetricsForData
  rw [if_neg hne', if_neg (by rw [hdata]; exact hne)]
  simp only [hlast]
  rw [hdata]
  simp only [hlast2, Option.getD_some, hts]
  have hfinal := stageSummaries_replace_last data.dropLast (data.getLast hne)
    r' hts (buildStages (data.getLast hne).timeInSeconds).length
    (buildStages (data.getLast hne).timeInSeconds)
    (buildStages_endTime_le _) 0 0
  rw [hdata] at hfinal
  exact hfinal.symm

/-! ## C8 — the AUC integrator -/

/-- Characterization of the forward search `List.findIdx?` with its start
accumulator: it yields the first index satisfying the predicate. -/
theorem findIdx?_shift (p : Row → Bool) :
    ∀ (l : List Row) (i s : Nat),
      List.findIdx? p l i = some s ↔
        ∃ k, s = i + k ∧ k < l.length ∧ p (l[k]?.getD defaultRow) = true
          ∧ ∀ j < k, p (l[j]?.getD defaultRow) = false := by
  intro l
  induction l with
  | nil =>
    intro i s
    constructor
    · intro h
      simp [List.findIdx?] at h
    · rintro ⟨k, _, hk, -, -⟩
      simp at hk
  | cons x xs ih =>
    intro i s
    rw [List.findIdx?_cons]
    by_cases hx : p x = true
    · rw [if_pos hx]
      constructor
      · intro h
        cases h
        exact ⟨0, by omega, by simp, by simpa using hx, by omega⟩
      · rintro ⟨k, rfl, hk, hpk, hfirst⟩
        cases k with
        | zero => rfl
        | succ k =>
          have h0 := hfirst 0 (Nat.succ_pos k)
          simp [hx] at h0
    · rw [if_neg hx]
      have hx' : p x = false := by
        revert hx
        cases p x <;> simp
      rw [ih (i + 1) s]
      constructor
      · rintro ⟨k, rfl, hk, hpk, hfirst⟩
        refine ⟨k + 1, by omega, by simpa using hk, by simpa using hpk, ?_⟩
        intro j hj
        cases j with
        | zero => simpa using hx'
        | succ j => simpa using hfirst j (by omega)
      · rintro ⟨k, hs, hk, hpk, hfirst⟩
        cases k with
        | zero =>
          simp only [List.getElem?_cons_zero, Option.getD_some] at hpk
          exact absurd hpk (by simp [hx'])
        | succ k =>
          refine ⟨k, by omega, by simpa using hk, by simpa using hpk, ?_⟩
          intro j hj
          simpa using hfirst (j + 1) (by omega)

/-- The forward search, from start 0: first-index characterization. -/
theorem findIdx?_first (p : Row → Bool) (l : List Row) (s : Nat) :
    l.findIdx? p = some s ↔
      s < l.length ∧ p (l[s]?.getD defaultRow) = true
        ∧ ∀ j < s, p (l[j]?.getD defaultRow) = false := by
  rw [findIdx?_shift p l 0 s]
  constructor
  · rintro ⟨k, rfl, h⟩
    simpa using h
  · rintro ⟨hs, hps, hfirst⟩
    exact ⟨s, by omega, hs, hps, hfirst⟩

/-- Characterization of the backward scan pattern
`find?` over a reversed range: it yields the largest index satisfying the
predicate. -/
theorem find?_reverse_range (q : Nat → Bool) :
    ∀ (n e : Nat),
      ((List.range n).reverse.find? q = some e ↔
        e < n ∧ q e = true ∧ ∀ j, e < j → j < n → q j = false) := by
  intro n
  induction n with
  | zero =>
    intro e
    simp
  | succ n ih =>
    intro e
    rw [List.range_succ, List.reverse_append]
    simp only [List.reverse_singleton, List.singleton_append]
    rw [List.find?_cons]
    by_cases hn : q n = true
    · simp only [hn]
      constructor
      · intro h
        cases h
        exact ⟨Nat.lt_succ_self n, hn, fun j hj hjn => by omega⟩
      · rintro ⟨he, hqe, hafter⟩
        by_cases hen : e = n
        · subst hen
          rfl
        · have hlt : e < n := by omega
          have := hafter n hlt (Nat.lt_succ_self n)
          simp [hn] at this
    · have hn' : q n = false := by
        revert hn
        cases q n <;> simp
      simp only [hn']
      rw [ih e]
      constructor
      · rintro ⟨he, hqe, haft⟩
        refine ⟨by omega, hqe, fun j hj hjn => ?_⟩
        by_cases hjn' : j = n
        · subst hjn'
          exact hn'
        · exact haft j hj (by omega)
      · rintro ⟨he, hqe, haft⟩
        have hen : e ≠ n := by
          intro h
          subst h
          simp [hn'] at hqe
        exact ⟨by omega, hqe, fun j hj hjn => haft j hj (by omega)⟩

/-- The backward VO2 scan yields the largest qualifying index. -/
theorem findLastLe_spec (data : List Row) (bound : ℚ) (e : Nat) :
    findLastLe data bound = some e ↔
      e < data.length ∧ vo2WithinEnd data bound e = true
        ∧ ∀ j, e < j → j < data.length → vo2WithinEnd data bound j = false := by
  unfold findLastLe
  exact find?_reverse_range (vo2WithinEnd data bound) data.length e

/-- A mapped sum over a contiguous index range is the matching finite sum. -/
theorem sum_map_range' (f : Nat → ℚ) :
    ∀ (n s : Nat),
      ((List.range' s n).map f).sum = ∑ i ∈ Finset.Ico s (s + n), f i := by
  intro n
  induction n with
  | zero =>
    intro s
    simp
  | succ n ih =>
    intro s
    rw [List.range'_succ, List.map_cons, List.sum_cons, ih (s + 1),
      Finset.sum_eq_sum_Ico_succ_bot (by omega : s < s + (n + 1)) f]
    have harg : s + 1 + n = s + (n + 1) := by omega
    rw [harg]

theorem getD_mem (l : List Row) (i : Nat) (h : i < l.length) :
    l[i]?.getD defaultRow ∈ l := by
  rw [List.getElem?_eq_getElem h]
  exact List.getElem_mem h

/-- C8 (amended).  The AUC integrator returns null exactly when the first
index whose VO2 reaches the start threshold does not exist, or the last
index (scanning backward) whose VO2 is at most the end threshold does not
exist, or the first index is at or after the last; otherwise it returns the
trapezoidal integral over the adjacent pairs of the bracket whose VO2 values
are both valid, together with the actual time bounds achieved and the
*requested* VO2 thresholds (not the row VO2 values actually attained). -/
theorem c8_auc_bracket_characterization (data : List Row) (vo2max sp ep : ℚ) :
    (calculateAuc data vo2max sp ep = none ↔
      ((∀ r ∈ data, vo2AtLeast (vo2max * (sp / 100)) r = false)
        ∨ (∀ i, i < data.length →
            vo2WithinEnd data (vo2max * (ep / 100)) i = false)
        ∨ (∃ s e,
            (s < data.length
              ∧ vo2AtLeast (vo2max * (sp / 100)) (data[s]?.getD defaultRow) = true
              ∧ ∀ j < s,
                  vo2AtLeast (vo2max * (sp / 100)) (data[j]?.getD defaultRow) = false)
            ∧ (e < data.length
              ∧ vo2WithinEnd data (vo2max * (ep / 100)) e = true
              ∧ ∀ j, e < j → j < data.length →
                  vo2WithinEnd data (vo2max * (ep / 100)) j = false)
            ∧ e ≤ s)))
    ∧ (∀ s e,
        (s < data.length
          ∧ vo2AtLeast (vo2max * (sp / 100)) (data[s]?.getD defaultRow) = true
          ∧ ∀ j < s,
              vo2AtLeast (vo2max * (sp / 100)) (data[j]?.getD defaultRow) = false) →
        (e < data.length
          ∧ vo2WithinEnd data (vo2max * (ep / 100)) e = true
          ∧ ∀ j, e < j → j < data.length →
              vo2WithinEnd data (vo2max * (ep / 100)) j = false) →
        s < e →
        calculateAuc data vo2max sp ep = some
          { value := ∑ i ∈ Finset.Ico s e,
              (match (data[i]?.getD defaultRow).vo2,
                     (data[i+1]?.getD defaultRow).vo2 with
               | some v1, some v2 => (v1 + v2) / 2
                   * (((data[i+1]?.getD defaultRow).timeInSeconds
                       - (data[i]?.getD defaultRow).timeInSeconds) / 60)
               | _, _ => (0 : ℚ)),
            startTime := (data[s]?.getD defaultRow).timeInSeconds,
            endTime := (data[e]?.getD defaultRow).timeInSeconds,
            startVo2 := vo2max * (sp / 100),
            endVo2 := vo2max * (ep / 100) }) := by
  constructor
  · cases hs : data.findIdx? (vo2AtLeast (vo2max * (sp / 100))) with
    | none =>
      have h1 : ∀ r ∈ data, vo2AtLeast (vo2max * (sp / 100)) r = false :=
        List.findIdx?_eq_none_iff.1 hs
      constructor
      · intro _
        exact Or.inl h1
      · intro _
        simp only [calculateAuc, hs]
    | some s =>
      cases he : findLastLe data (vo2max * (ep / 100)) with
      | none =>
        have h2 : ∀ i, i < data.length →
            vo2WithinEnd data (vo2max * (ep / 100)) i = false := by
          intro i hi
          have := List.find?_eq_none.1 he i
            (by simpa using List.mem_range.2 hi)
          revert this
          cases vo2WithinEnd data (vo2max * (ep / 100)) i <;> simp
        constructor
        · intro _
          exact Or.inr (Or.inl h2)
        · intro _
          simp only [calculateAuc, hs, he]
      | some e =>
        by_cases hse : s ≥ e
        · constructor
          · intro _
            exact Or.inr (Or.inr ⟨s, e, (findIdx?_first _ _ _).1 hs,
              (findLastLe_spec _ _ _).1 he, by omega⟩)
          · intro _
            simp only [calculateAuc, hs, he, if_pos hse]
        · have hlhs : calculateAuc data vo2max sp ep
              = some { value := aucSum data s e,
                       startTime := (data[s]?.getD defaultRow).timeInSeconds,
                       endTime := (data[e]?.getD defaultRow).timeInSeconds,
                       startVo2 := vo2max * (sp / 100),
                       endVo2 := vo2max * (ep / 100) } := by
            simp only [calculateAuc, hs, he, if_neg hse]
          constructor
          · intro h
            rw [hlhs] at h
            cases h
          · rintro (h1 | h2 | ⟨s', e', hf', hl', hle⟩)
            · obtain ⟨hslen, hps, -⟩ := (findIdx?_first _ _ _).1 hs
              have := h1 _ (getD_mem data s hslen)
              rw [hps] at this
              cases this
            · obtain ⟨helen, hpe, -⟩ := (findLastLe_spec _ _ _).1 he
              have := h2 e helen
              rw [hpe] at this
              cases this
            · have hs' : data.findIdx? (vo2AtLeast (vo2max * (sp / 100)))
                  = some s' := (findIdx?_first _ _ _).2 hf'
              have he' : findLastLe data (vo2max * (ep / 100)) = some e' :=
                (findLastLe_spec _ _ _).2 hl'
              rw [hs] at hs'
              rw [he] at he'
              cases hs'
              cases he'
              omega
  · intro s e hfirst hlast hse
    have hs : data.findIdx? (vo2AtLeast (vo2max * (sp / 100))) = some s :=
      (findIdx?_first _ _ _).2 hfirst
    have he : findLastLe data (vo2max * (ep / 100)) = some e :=
      (findLastLe_spec _ _ _).2 hlast
    have hsum : aucSum data s e
        = ∑ i ∈ Finset.Ico s e,
            (match (data[i]?.getD defaultRow).vo2,
                   (data[i+1]?.getD defaultRow).vo2 with
             | some v1, some v2 => (v1 + v2) / 2
                 * (((data[i+1]?.getD defaultRow).timeInSeconds
                     - (data[i]?.getD defaultRow).timeInSeconds) / 60)
             | _, _ => (0 : ℚ)) := by
      unfold aucSum
      rw [sum_map_range']
      have harg : s + (e - s) = e := by omega
      rw [harg]
    simp only [calculateAuc, hs, he, if_neg (by omega : ¬ s ≥ e), hsum]

theorem c8_auc_bracket_witness :
    ((0 < aucSeries.length
       ∧ vo2AtLeast (4 * (50 / 100)) (aucSeries[0]?.getD defaultRow) = true
       ∧ ∀ j < 0, vo2AtLeast (4 * (50 / 100)) (aucSeries[j]?.getD defaultRow) = false)
     ∧ (1 < aucSeries.length
       ∧ vo2WithinEnd aucSeries (4 * (100 / 100)) 1 = true
       ∧ ∀ j, 1 < j → j < aucSeries.length →
           vo2WithinEnd aucSeries (4 * (100 / 100)) j = false)
     ∧ 0 < 1) ∧
    calculateAuc aucSeries 4 50 100 = some
      { value := ∑ i ∈ Finset.Ico 0 1,
          (match (aucSeries[i]?.getD defaultRow).vo2,
                 (aucSeries[i+1]?.getD defaultRow).vo2 with
           | some v1, some v2 => (v1 + v2) / 2
               * (((aucSeries[i+1]?.getD defaultRow).timeInSeconds
                   - (aucSeries[i]?.getD defaultRow).timeInSeconds) / 60)
           | _, _ => (0 : ℚ)),
        startTime := (aucSeries[0]?.getD defaultRow).timeInSeconds,
        endTime := (aucSeries[1]?.getD defaultRow).timeInSeconds,
        startVo2 := 4 * (50 / 100),
        endVo2 := 4 * (100 / 100) } := by
  refine ⟨⟨?_, ?_, by decide⟩, ?_⟩
  · exact ⟨by decide, by decide, by omega⟩
  · refine ⟨by decide, by decide, ?_⟩
    intro j h1 h2
    have hlen : aucSeries.length = 2 := by decide
    rw [hlen] at h2
    omega
  · exact (c8_auc_bracket_characterization aucSeries 4 50 100).2 0 1
      ⟨by decide, by decide, by omega⟩
      ⟨by decide, by decide, by
        intro j h1 h2
        have hlen : aucSeries.length = 2 := by decide
        rw [hlen] at h2
        omega⟩
      (by decide)

/-- Concrete two-stage series for the C10 witness. -/
def wFinalData : List Row :=
  [mkRow "u0" 0 (some 1), mkRow "u1" 200 (some 2)]

/-- Replacement final row with the same timestamp but a wildly different
oxygen-uptake value. -/
def wFinalRow : Row := mkRow "uX" 200 (some 99)

theorem c10_final_row_excluded_witness :
    (wFinalData ≠ []
     ∧ 0 < (wFinalData.getLast (by decide)).timeInSeconds
     ∧ wFinalRow.timeInSeconds = (wFinalData.getLast (by decide)).timeInSeconds) ∧
    (calculateKeyMetricsForData (wFinalData.dropLast ++ [wFinalRow])).plateauStageSummary
      = (calculateKeyMetricsForData wFinalData).plateauStageSummary := by
  refine ⟨⟨by decide, by decide, by decide⟩, ?_⟩
  exact c10_final_row_excluded_from_averages wFinalData wFinalRow
    (by decide) (by decide) (by decide)

/-! ## C9 — percentile extractor ordering -/

/-- With a fresh seen-set, the extractor loop is a filterMap over the
percentage steps: the seen-set check never fires because the steps are
pairwise distinct. -/
theorem pctFold_spec (data : List Row) (v : ℚ) :
    ∀ (ps : List Nat) (acc : List PercRow) (seen : List Nat),
      ps.Nodup → (∀ p ∈ ps, p ∉ seen) →
      (ps.foldl (pctStep data v) (acc, seen)).1
        = acc ++ ps.filterMap (fun (i : Nat) =>
            (data.findIdx? (vo2AtLeast (v * ((i : ℚ) / 100)))).map
              (fun idx => PercRow.mk i (data[idx]?.getD defaultRow))) := by
  intro ps
  induction ps with
  | nil =>
    intro acc seen _ _
    simp
  | cons p ps ih =>
    intro acc seen hnd hfresh
    rw [List.foldl_cons, List.filterMap_cons]
    have hstep : pctStep data v (acc, seen) p
        = (acc ++ ((data.findIdx? (vo2AtLeast (v * ((p : ℚ) / 100)))).map
              (fun idx => (⟨p, data[idx]?.getD defaultRow⟩ : PercRow))).toList,
           seen ++ ((data.findIdx? (vo2AtLeast (v * ((p : ℚ) / 100)))).map
              (fun _ => p)).toList) := by
      unfold pctStep
      cases hfind : data.findIdx? (vo2AtLeast (v * ((p : ℚ) / 100))) with
      | none => simp [hfind]
      | some idx => simp [hfind, hfresh p (List.mem_cons_self p ps)]
    rw [hstep]
    have hnd' : ps.Nodup := (List.nodup_cons.1 hnd).2
    have hfresh' : ∀ q ∈ ps,
        q ∉ seen ++ ((data.findIdx? (vo2AtLeast (v * ((p : ℚ) / 100)))).map
          (fun _ => p)).toList := by
      intro q hq
      simp only [List.mem_append]
      rintro (hqs | hqp)
      · exact hfresh q (List.mem_cons_of_mem p hq) hqs
      · have : q = p := by
          cases hfind : data.findIdx? (vo2AtLeast (v * ((p : ℚ) / 100))) with
          | none => rw [hfind] at hqp; simp at hqp
          | some idx => rw [hfind] at hqp; simpa using hqp
        exact (List.nodup_cons.1 hnd).1 (this ▸ hq)
    rw [ih _ _ hnd' hfresh']
    cases data.findIdx? (vo2AtLeast (v * ((p : ℚ) / 100))) with
    | none => simp
    | some idx => simp

/-- A first-index search for a weaker predicate lands no later than one for
a stronger predicate. -/
theorem findIdx?_mono (p q : Row → Bool) (l : List Row) (i j : Nat)
    (himp : ∀ r, q r = true → p r = true)
    (hp : l.findIdx? p = some i) (hq : l.findIdx? q = some j) : i ≤ j := by
  obtain ⟨-, -, hfirst⟩ := (findIdx?_first p l i).1 hp
  obtain ⟨-, hqj, -⟩ := (findIdx?_first q l j).1 hq
  by_contra h
  push_neg at h
  have hpj := hfirst j h
  rw [himp _ hqj] at hpj
  cases hpj

/-- A lower threshold accepts every row a higher threshold accepts. -/
theorem vo2AtLeast_imp (t1 t2 : ℚ) (h : t1 ≤ t2) (r : Row)
    (hr : vo2AtLeast t2 r = true) : vo2AtLeast t1 r = true := by
  unfold vo2AtLeast at hr ⊢
  cases hv : r.vo2 with
  | none => rw [hv] at hr; cases hr
  | some v =>
    rw [hv] at hr
    simp only [decide_eq_true_eq] at hr ⊢
    linarith

/-- In a series sorted by time, later indices carry later-or-equal times. -/
theorem sorted_time_le (data : List Row)
    (hsort : List.Pairwise (fun a b => a.timeInSeconds ≤ b.timeInSeconds) data)
    (i j : Nat) (hi : i < data.length) (hj : j < data.length) (hij : i ≤ j) :
    (data[i]?.getD defaultRow).timeInSeconds
      ≤ (data[j]?.getD defaultRow).timeInSeconds := by
  rcases Nat.lt_or_ge i j with hlt | hge
  · have := List.pairwise_iff_getElem.1 hsort i j hi hj hlt
    rw [List.getElem?_eq_getElem hi, List.getElem?_eq_getElem hj]
    simpa using this
  · have : i = j := by omega
    subst this
    exact le_refl _

/-- C9 (amended).  For a series sorted by time and a nonnegative vo2max, the
percentile extractor emits rows pairwise strictly increasing in percentage
label and non-strictly increasing in timeSeconds (strictness in time can
fail: several thresholds may be first reached at the same row); this gives
at most one row per percentage bucket in ascending order, and a percentage
is emitted exactly when some row's VO2 reaches its threshold. -/
theorem c9_percentile_characterization (data : List Row) (m : KeyMetrics)
    (hsort : List.Pairwise (fun a b => a.timeInSeconds ≤ b.timeInSeconds) data)
    (hnn : 0 ≤ m.vo2max) :
    List.Pairwise
      (fun a b => a.pct < b.pct ∧ a.row.timeInSeconds ≤ b.row.timeInSeconds)
      (extractPercentageDataForMetrics data m)
    ∧ (∀ i ∈ PCT_STEPS,
        ((∃ pr ∈ extractPercentageDataForMetrics data m, pr.pct = i) ↔
          ∃ r ∈ data, vo2AtLeast (m.vo2max * ((i : ℚ) / 100)) r = true)) := by
  by_cases hd : data = []
  · subst hd
    unfold extractPercentageDataForMetrics
    simp
  · have hres : extractPercentageDataForMetrics data m
        = PCT_STEPS.filterMap (fun (i : Nat) =>
            (data.findIdx? (vo2AtLeast (m.vo2max * ((i : ℚ) / 100)))).map
              (fun idx => PercRow.mk i (data[idx]?.getD defaultRow))) := by
      unfold extractPercentageDataForMetrics
      rw [if_neg hd]
      simpa using pctFold_spec data m.vo2max PCT_STEPS [] [] (by decide)
        (by simp)
    constructor
    · rw [hres, List.pairwise_filterMap]
      have hsteps : List.Pairwise (fun a b => a < b) PCT_STEPS := by decide
      refine hsteps.imp_of_mem ?_
      intro a b _ _ hab
      intro x hx y hy
      simp only [Option.mem_def, Option.map_eq_some'] at hx hy
      obtain ⟨ia, hia, rfl⟩ := hx
      obtain ⟨ib, hib, rfl⟩ := hy
      have hthr : m.vo2max * ((a : ℚ) / 100) ≤ m.vo2max * ((b : ℚ) / 100) := by
        apply mul_le_mul_of_nonneg_left _ hnn
        have : (a : ℚ) ≤ (b : ℚ) := by exact_mod_cast Nat.le_of_lt hab
        linarith
      have hmono : ia ≤ ib :=
        findIdx?_mono _ _ data ia ib (vo2AtLeast_imp _ _ hthr) hia hib
      obtain ⟨hlen_a, -, -⟩ :=
        (findIdx?_first (vo2AtLeast (m.vo2max * ((a : ℚ) / 100))) data ia).1 hia
      obtain ⟨hlen_b, -, -⟩ :=
        (findIdx?_first (vo2AtLeast (m.vo2max * ((b : ℚ) / 100))) data ib).1 hib
      exact ⟨hab, sorted_time_le data hsort ia ib hlen_a hlen_b hmono⟩
    · intro i hi
      rw [hres]
      constructor
      · rintro ⟨pr, hpr, hpct⟩
        rw [List.mem_filterMap] at hpr
        obtain ⟨a, _, hfa⟩ := hpr
        simp only [Option.map_eq_some'] at hfa
        obtain ⟨idx, hfind, rfl⟩ := hfa
        simp only at hpct
        subst hpct
        obtain ⟨hlen, hpred, -⟩ := (findIdx?_first _ data idx).1 hfind
        exact ⟨data[idx]?.getD defaultRow, getD_mem data idx hlen, hpred⟩
      · rintro ⟨r, hr, hpred⟩
        cases hfind : data.findIdx? (vo2AtLeast (m.vo2max * ((i : ℚ) / 100))) with
        | none =>
          have := List.findIdx?_eq_none_iff.1 hfind r hr
          rw [hpred] at this
          cases this
        | some idx =>
          refine ⟨PercRow.mk i (data[idx]?.getD defaultRow), ?_, rfl⟩
          rw [List.mem_filterMap]
          exact ⟨i, hi, by rw [hfind]; rfl⟩

/-- Concrete sorted two-row series for the C9 witness. -/
def wPctData : List Row :=
  [mkRow "q0" 0 (some 1), mkRow "q1" 30 (some 2)]

theorem c9_percentile_witness :
    (List.Pairwise (fun a b => a.timeInSeconds ≤ b.timeInSeconds) wPctData
     ∧ 0 ≤ (calculateKeyMetricsForData wPctData).vo2max) ∧
    (List.Pairwise
      (fun a b => a.pct < b.pct ∧ a.row.timeInSeconds ≤ b.row.timeInSeconds)
      (extractPercentageDataForMetrics wPctData
        (calculateKeyMetricsForData wPctData))
    ∧ (∀ i ∈ PCT_STEPS,
        ((∃ pr ∈ extractPercentageDataForMetrics wPctData
              (calculateKeyMetricsForData wPctData), pr.pct = i) ↔
          ∃ r ∈ wPctData,
            vo2AtLeast ((calculateKeyMetricsForData wPctData).vo2max
              * ((i : ℚ) / 100)) r = true))) := by
  refine ⟨⟨by decide, by decide⟩, ?_⟩
  exact c9_percentile_characterization wPctData
    (calculateKeyMetricsForData wPctData) (by decide) (by decide)

/-! ## C3 — plateau detection -/

/-- Default summary used for out-of-range lookups in statements. -/
def dfltSummary : PlateauStageSummary :=
  { stage := 0, duration := 0, avgVo2 := 0, deltaVo2 := none, isPartial := false }

theorem stageSummaries_length (data : List Row) (total : Nat) :
    ∀ (stages : List StageWindow) (idx : Nat) (prev : ℚ),
      (stageSummaries data total idx prev stages).length = stages.length := by
  intro stages
  induction stages with
  | nil => intro idx prev; rfl
  | cons st rest ih =>
    intro idx prev
    show (stageSummaryAt data total idx prev st
        :: stageSummaries data total (idx + 1) _ rest).length = _
    simp [ih]

/-- Unfolding equation for the summary recursion. -/
theorem stageSummaries_cons (data : List Row) (total idx : Nat) (prev : ℚ)
    (st : StageWindow) (rest : List StageWindow) :
    stageSummaries data total idx prev (st :: rest)
      = stageSummaryAt data total idx prev st
        :: stageSummaries data total (idx + 1)
             (stageSummaryAt data total idx prev st).avgVo2 rest := rfl

/-- The delta stored in a stage summary is, by construction, the difference
with the accumulator when the stage index is positive and both values are
positive. -/
theorem stageSummaryAt_delta (data : List Row) (total idx : Nat) (prev : ℚ)
    (st : StageWindow) :
    (stageSummaryAt data total idx prev st).deltaVo2
      = if idx > 0 ∧ (stageSummaryAt data total idx prev st).avgVo2 > 0
          ∧ prev > 0
        then some ((stageSummaryAt data total idx prev st).avgVo2 - prev)
        else none := rfl

/-- Each summary after the first carries the delta against the previous
summary's average, null unless both averages are strictly positive. -/
theorem stageSummaries_delta_succ (data : List Row) (total : Nat) :
    ∀ (stages : List StageWindow) (idx : Nat) (prev : ℚ) (k : Nat),
      k + 1 < (stageSummaries data total idx prev stages).length →
      ((stageSummaries data total idx prev stages)[k+1]?.getD dfltSummary).deltaVo2
        = if 0 < ((stageSummaries data total idx prev stages)[k+1]?.getD
              dfltSummary).avgVo2
            ∧ 0 < ((stageSummaries data total idx prev stages)[k]?.getD
              dfltSummary).avgVo2
          then some (((stageSummaries data total idx prev stages)[k+1]?.getD
              dfltSummary).avgVo2
            - ((stageSummaries data total idx prev stages)[k]?.getD
              dfltSummary).avgVo2)
          else none := by
  intro stages
  induction stages with
  | nil =>
    intro idx prev k hk
    simp [stageSummaries] at hk
  | cons st rest ih =>
    intro idx prev k hk
    rw [stageSummaries_cons] at hk ⊢
    cases k with
    | zero =>
      cases rest with
      | nil => simp [stageSummaries] at hk
      | cons st2 rest2 =>
        rw [stageSummaries_cons]
        simp only [List.getElem?_cons_succ, List.getElem?_cons_zero,
          Option.getD_some]
        rw [stageSummaryAt_delta]
        by_cases h : 0 < (stageSummaryAt data total (idx + 1)
            (stageSummaryAt data total idx prev st).avgVo2 st2).avgVo2
            ∧ 0 < (stageSummaryAt data total idx prev st).avgVo2
        · rw [if_pos ⟨by omega, h.1, h.2⟩, if_pos h]
        · rw [if_neg (fun hc => h ⟨hc.2.1, hc.2.2⟩), if_neg h]
    | succ k =>
      simp only [List.getElem?_cons_succ]
      apply ih
      simp only [List.length_cons] at hk
      omega

/-- The first stage summary always carries a null delta. -/
theorem stageSummaries_delta_head (data : List Row) (total : Nat) (prev : ℚ)
    (stages : List StageWindow)
    (h0 : 0 < (stageSummaries data total 0 prev stages).length) :
    ((stageSummaries data total 0 prev stages)[0]?.getD dfltSummary).deltaVo2
      = none := by
  cases stages with
  | nil => simp [stageSummaries] at h0
  | cons st rest =>
    rw [stageSummaries_cons]
    simp only [List.getElem?_cons_zero, Option.getD_some]
    rw [stageSummaryAt_delta]
    rw [if_neg (fun hc => by omega)]

theorem filterMap_of_forall_some {α β : Type} (f : α → Option β) (g : α → β) :
    ∀ (l : List α), (∀ x ∈ l, f x = some (g x)) → l.filterMap f = l.map g := by
  intro l
  induction l with
  | nil => intro _; rfl
  | cons a as ih =>
    intro h
    rw [List.filterMap_cons, h a (List.mem_cons_self a as), List.map_cons,
      ih (fun x hx => h x (List.mem_cons_of_mem a hx))]

/-- No fixed-duration window is ever dropped: for every index below the
ceiling count, the window is non-degenerate, so the stage list is exactly
the mapped index range. -/
theorem buildStages_eq_map (td : ℚ) :
    buildStages td
      = (List.range (⌈td / STAGE_DURATION_SECONDS⌉ : ℤ).toNat).map
          (fun (i : Nat) => ⟨(i : ℚ) * STAGE_DURATION_SECONDS,
                     min (((i : ℚ) + 1) * STAGE_DURATION_SECONDS) td⟩) := by
  unfold buildStages
  dsimp only
  apply filterMap_of_forall_some
  intro i hi
  rw [List.mem_range] at hi
  have hz : (i : ℤ) < ⌈td / STAGE_DURATION_SECONDS⌉ := by omega
  have hq : (i : ℚ) < td / STAGE_DURATION_SECONDS := by
    have := Int.lt_ceil.1 hz
    push_cast at this
    exact this
  have hlt : (i : ℚ) * STAGE_DURATION_SECONDS < td := by
    rw [lt_div_iff (by norm_num [STAGE_DURATION_SECONDS])] at hq
    exact hq
  have hcond : min ((i + 1 : ℚ) * STAGE_DURATION_SECONDS) td
      > (i : ℚ) * STAGE_DURATION_SECONDS := by
    apply lt_min
    · have : (0 : ℚ) < STAGE_DURATION_SECONDS := by
        norm_num [STAGE_DURATION_SECONDS]
      nlinarith
    · exact hlt
  rw [if_pos hcond]

/-- The start time of the last fixed-duration stage is the stage count
minus one, times the stage duration. -/
theorem buildStages_getLast_startTime (td : ℚ) (h : buildStages td ≠ []) :
    (((buildStages td).getLast?).getD ⟨0, 0⟩).startTime
      = (((buildStages td).length : ℚ) - 1) * STAGE_DURATION_SECONDS := by
  rw [buildStages_eq_map] at h ⊢
  set n := (⌈td / STAGE_DURATION_SECONDS⌉ : ℤ).toNat with hn
  have hlen : ((List.range n).map
      (fun (i : Nat) => (⟨(i : ℚ) * STAGE_DURATION_SECONDS,
        min (((i : ℚ) + 1) * STAGE_DURATION_SECONDS) td⟩ : StageWindow))).length = n := by
    simp
  have hpos : 0 < n := by
    rcases Nat.eq_zero_or_pos n with h0 | h0
    · rw [h0] at h
      simp at h
    · exact h0
  rw [List.getLast?_eq_getElem?, hlen, List.getElem?_map,
    List.getElem?_range (by omega : n - 1 < n)]
  simp only [Option.map_some', Option.getD_some]
  have : ((n - 1 : ℕ) : ℚ) = (n : ℚ) - 1 := by
    push_cast [Nat.cast_sub hpos]
    ring
  rw [this]

theorem plateauDecision_reached_iff (data : List Row)
    (stages : List StageWindow) (summary : List PlateauStageSummary) :
    (plateauDecision data stages summary).1 = true ↔
      2 ≤ summary.length ∧ ∃ s d, summary.getLast? = some s
        ∧ s.deltaVo2 = some d ∧ d < 15 / 100 := by
  unfold plateauDecision
  by_cases h2 : summary.length ≥ 2
  · rw [if_pos h2]
    have hne : summary ≠ [] := by
      intro h
      rw [h] at h2
      simp at h2
    obtain ⟨last, hlast⟩ :=
      Option.isSome_iff_exists.1 (List.getLast?_isSome.2 hne)
    rw [hlast]
    simp only [Option.getD_some]
    cases hdelta : last.deltaVo2 with
    | none =>
      dsimp only
      constructor
      · intro h
        cases h
      · rintro ⟨-, s, d, hs, hsd, -⟩
        cases hs
        rw [hdelta] at hsd
        cases hsd
    | some d =>
      dsimp only
      by_cases hlt : d < 15 / 100
      · rw [if_pos hlt]
        dsimp only
        simp only [true_iff]
        exact ⟨h2, last, d, rfl, hdelta, hlt⟩
      · rw [if_neg hlt]
        dsimp only
        constructor
        · intro h
          cases h
        · rintro ⟨-, s, d', hs, hsd', hlt'⟩
          cases hs
          rw [hdelta] at hsd'
          cases hsd'
          exact absurd hlt' hlt
  · rw [if_neg h2]
    dsimp only
    constructor
    · intro h
      cases h
    · rintro ⟨h2', -⟩
      exact absurd h2' h2

theorem plateauDecision_comparison (data : List Row)
    (stages : List StageWindow) (summary : List PlateauStageSummary)
    (h : (plateauDecision data stages summary).1 = true) :
    (plateauDecision data stages summary).2.2
      = some ((summary[summary.length - 2]?.getD ⟨0, 0, 0, none, false⟩).avgVo2,
          ((summary.getLast?).getD ⟨0, 0, 0, none, false⟩).avgVo2) := by
  obtain ⟨h2, s, d, hs, hsd, hlt⟩ :=
    (plateauDecision_reached_iff data stages summary).1 h
  unfold plateauDecision
  rw [if_pos h2, hs]
  simp only [Option.getD_some]
  rw [hsd]
  dsimp only
  rw [if_pos hlt]

theorem plateauDecision_time (data : List Row)
    (stages : List StageWindow) (summary : List PlateauStageSummary)
    (h : (plateauDecision data stages summary).1 = true) :
    (∀ r, data.find? (fun q =>
        q.timeInSeconds ≥ ((stages.getLast?).getD ⟨0, 0⟩).startTime) = some r →
      r.t ≠ "" →
      (plateauDecision data stages summary).2.1 = some r.t)
    ∧ (data.find? (fun q =>
        q.timeInSeconds ≥ ((stages.getLast?).getD ⟨0, 0⟩).startTime) = none →
      (plateauDecision data stages summary).2.1
        = some (((data.getLast?).getD defaultRow).t)) := by
  obtain ⟨h2, s, d, hs, hsd, hlt⟩ :=
    (plateauDecision_reached_iff data stages summary).1 h
  constructor
  · intro r hfind hne
    unfold plateauDecision
    rw [if_pos h2, hs]
    simp only [Option.getD_some]
    rw [hsd]
    dsimp only
    rw [if_pos hlt]
    dsimp only
    rw [hfind]
    dsimp only
    rw [if_neg hne]
  · intro hfind
    unfold plateauDecision
    rw [if_pos h2, hs]
    simp only [Option.getD_some]
    rw [hsd]
    dsimp only
    rw [if_pos hlt]
    dsimp only
    rw [hfind]

/-- C3.  The key-metrics calculator reports plateauReached = true iff there
are at least 2 fixed-duration stage summaries and the last summary's delta
(which by the fourth conjunct is the difference of the last two stages'
terminal-window VO2 averages, null unless both are strictly positive) is
non-null and strictly below 0.15 L/min; isPeak is always the negation of
plateauReached; on plateau, plateauComparison holds the last two stage
averages and plateauTime is the time label of the first row at or after the
last stage's start (falling back to the final row's time label), stated for
series whose time labels are non-empty strings. -/
theorem c3_plateau_characterization (data : List Row)
    (ht : ∀ r ∈ data, r.t ≠ "") :
    ((calculateKeyMetricsForData data).plateauReached = true ↔
      2 ≤ (calculateKeyMetricsForData data).plateauStageSummary.length
        ∧ ∃ s d,
            (calculateKeyMetricsForData data).plateauStageSummary.getLast? = some s
            ∧ s.deltaVo2 = some d ∧ d < 15 / 100)
    ∧ (calculateKeyMetricsForData data).isPeak
        = ! (calculateKeyMetricsForData data).plateauReached
    ∧ (0 < (calculateKeyMetricsForData data).plateauStageSummary.length →
        (((calculateKeyMetricsForData data).plateauStageSummary[0]?).getD
            dfltSummary).deltaVo2 = none)
    ∧ (∀ k, k + 1 < (calculateKeyMetricsForData data).plateauStageSummary.length →
        (((calculateKeyMetricsForData data).plateauStageSummary[k+1]?).getD
            dfltSummary).deltaVo2
          = if 0 < (((calculateKeyMetricsForData data).plateauStageSummary[k+1]?).getD
                dfltSummary).avgVo2
              ∧ 0 < (((calculateKeyMetricsForData data).plateauStageSummary[k]?).getD
                dfltSummary).avgVo2
            then some ((((calculateKeyMetricsForData data).plateauStageSummary[k+1]?).getD
                dfltSummary).avgVo2
              - (((calculateKeyMetricsForData data).plateauStageSummary[k]?).getD
                dfltSummary).avgVo2)
            else none)
    ∧ ((calculateKeyMetricsForData data).plateauReached = true →
        (calculateKeyMetricsForData data).plateauComparison
          = some (((((calculateKeyMetricsForData data).plateauStageSummary[
                  (calculateKeyMetricsForData data).plateauStageSummary.length - 2]?).getD
                dfltSummary).avgVo2),
              ((((calculateKeyMetricsForData data).plateauStageSummary.getLast?).getD
                dfltSummary).avgVo2))
        ∧ (∀ r, data.find? (fun q => q.timeInSeconds ≥
              (((calculateKeyMetricsForData data).plateauStageSummary.length : ℚ) - 1)
                * STAGE_DURATION_SECONDS) = some r →
            (calculateKeyMetricsForData data).plateauTime = some r.t)
        ∧ (data.find? (fun q => q.timeInSeconds ≥
              (((calculateKeyMetricsForData data).plateauStageSummary.length : ℚ) - 1)
                * STAGE_DURATION_SECONDS) = none →
            (calculateKeyMetricsForData data).plateauTime
              = (data.getLast?).map Row.t)) := by
  by_cases hd : data = []
  · subst hd
    refine ⟨⟨fun h => absurd h (by decide), fun h => absurd h.1 (by decide)⟩,
      by decide, fun h0 => absurd h0 (by decide), ?_, fun h => absurd h (by decide)⟩
    intro k hk
    have hlen : (calculateKeyMetricsForData []).plateauStageSummary.length = 0 := by
      decide
    rw [hlen] at hk
    omega
  · have hsum : (calculateKeyMetricsForData data).plateauStageSummary
        = stageSummaries data
            (buildStages (((data.getLast?).getD defaultRow).timeInSeconds)).length
            0 0 (buildStages (((data.getLast?).getD defaultRow).timeInSeconds)) := by
      unfold calculateKeyMetricsForData
      rw [if_neg hd]
    have hreached : (calculateKeyMetricsForData data).plateauReached
        = (plateauDecision data
            (buildStages (((data.getLast?).getD defaultRow).timeInSeconds))
            (stageSummaries data
              (buildStages (((data.getLast?).getD defaultRow).timeInSeconds)).length
              0 0 (buildStages (((data.getLast?).getD defaultRow).timeInSeconds)))).1 := by
      unfold calculateKeyMetricsForData
      rw [if_neg hd]
    have hpeak : (calculateKeyMetricsForData data).isPeak
        = ! (plateauDecision data
            (buildStages (((data.getLast?).getD defaultRow).timeInSeconds))
            (stageSummaries data
              (buildStages (((data.getLast?).getD defaultRow).timeInSeconds)).length
              0 0 (buildStages (((data.getLast?).getD defaultRow).timeInSeconds)))).1 := by
      unfold calculateKeyMetricsForData
      rw [if_neg hd]
    have htim : (calculateKeyMetricsForData data).plateauTime
        = (plateauDecision data
            (buildStages (((data.getLast?).getD defaultRow).timeInSeconds))
            (stageSummaries data
              (buildStages (((data.getLast?).getD defaultRow).timeInSeconds)).length
              0 0 (buildStages (((data.getLast?).getD defaultRow).timeInSeconds)))).2.1 := by
      unfold calculateKeyMetricsForData
      rw [if_neg hd]
    have hcmp : (calculateKeyMetricsForData data).plateauComparison
        = (plateauDecision data
            (buildStages (((data.getLast?).getD defaultRow).timeInSeconds))
            (stageSummaries data
              (buildStages (((data.getLast?).getD defaultRow).timeInSeconds)).length
              0 0 (buildStages (((data.getLast?).getD defaultRow).timeInSeconds)))).2.2 := by
      unfold calculateKeyMetricsForData
      rw [if_neg hd]
    have hlen2 : (stageSummaries data
        (buildStages (((data.getLast?).getD defaultRow).timeInSeconds)).length
        0 0 (buildStages (((data.getLast?).getD defaultRow).timeInSeconds))).length
      = (buildStages (((data.getLast?).getD defaultRow).timeInSeconds)).length :=
      stageSummaries_length data _ _ 0 0
    have hdflt : (⟨0, 0, 0, none, false⟩ : PlateauStageSummary) = dfltSummary := rfl
    refine ⟨?_, ?_, ?_, ?_, ?_⟩
    · rw [hreached, hsum]
      exact plateauDecision_reached_iff data _ _
    · rw [hpeak, hreached]
    · rw [hsum]
      exact stageSummaries_delta_head data _ 0 _
    · intro k hk
      rw [hsum] at hk ⊢
      exact stageSummaries_delta_succ data _ _ 0 0 k hk
    · intro hp
      rw [hreached] at hp
      have hstagesne : buildStages (((data.getLast?).getD defaultRow).timeInSeconds)
          ≠ [] := by
        obtain ⟨h2, -⟩ := (plateauDecision_reached_iff data _ _).1 hp
        rw [hlen2] at h2
        exact List.length_pos.1 (by omega)
      have hstart := buildStages_getLast_startTime
        (((data.getLast?).getD defaultRow).timeInSeconds) hstagesne
      refine ⟨?_, ?_, ?_⟩
      · rw [hcmp, hsum, ← hdflt]
        exact plateauDecision_comparison data _ _ hp
      · intro r hfind
        rw [htim]
        refine (plateauDecision_time data _ _ hp).1 r ?_
          (ht r (List.mem_of_find?_eq_some hfind))
        rw [hstart, ← hlen2, ← hsum]
        exact hfind
      · intro hfind
        rw [htim]
        have hres := (plateauDecision_time data _ _ hp).2 (by
          rw [hstart, ← hlen2, ← hsum]
          exact hfind)
        rw [hres]
        obtain ⟨last, hlast⟩ :=
          Option.isSome_iff_exists.1 (List.getLast?_isSome.2 hd)
        rw [hlast]
        simp

/-- Concrete two-stage plateau-reaching series for the C3 witness: stage 1
terminal-window average 2.0, stage 2 terminal-window average 2.1, delta 0.1
below the 0.15 threshold. -/
def wPlateauData : List Row :=
  [mkRow "v0" 0 (some 2), mkRow "v1" 170 (some 2),
   mkRow "v2" 350 (some (21/10)), mkRow "v3" 360 (some (21/10))]

theorem c3_plateau_witness :
    (∀ r ∈ wPlateauData, r.t ≠ "") ∧
    (((calculateKeyMetricsForData wPlateauData).plateauReached = true ↔
      2 ≤ (calculateKeyMetricsForData wPlateauData).plateauStageSummary.length
        ∧ ∃ s d,
            (calculateKeyMetricsForData wPlateauData).plateauStageSummary.getLast?
              = some s
            ∧ s.deltaVo2 = some d ∧ d < 15 / 100)
    ∧ (calculateKeyMetricsForData wPlateauData).isPeak
        = ! (calculateKeyMetricsForData wPlateauData).plateauReached
    ∧ (0 < (calculateKeyMetricsForData wPlateauData).plateauStageSummary.length →
        (((calculateKeyMetricsForData wPlateauData).plateauStageSummary[0]?).getD
            dfltSummary).deltaVo2 = none)
    ∧ (∀ k, k + 1
          < (calculateKeyMetricsForData wPlateauData).plateauStageSummary.length →
        (((calculateKeyMetricsForData wPlateauData).plateauStageSummary[k+1]?).getD
            dfltSummary).deltaVo2
          = if 0 < (((calculateKeyMetricsForData wPlateauData).plateauStageSummary[k+1]?).getD
                dfltSummary).avgVo2
              ∧ 0 < (((calculateKeyMetricsForData wPlateauData).plateauStageSummary[k]?).getD
                dfltSummary).avgVo2
            then some ((((calculateKeyMetricsForData wPlateauData).plateauStageSummary[k+1]?).getD
                dfltSummary).avgVo2
              - (((calculateKeyMetricsForData wPlateauData).plateauStageSummary[k]?).getD
                dfltSummary).avgVo2)
            else none)
    ∧ ((calculateKeyMetricsForData wPlateauData).plateauReached = true →
        (calculateKeyMetricsForData wPlateauData).plateauComparison
          = some (((((calculateKeyMetricsForData wPlateauData).plateauStageSummary[
                  (calculateKeyMetricsForData wPlateauData).plateauStageSummary.length - 2]?).getD
                dfltSummary).avgVo2),
              ((((calculateKeyMetricsForData wPlateauData).plateauStageSummary.getLast?).getD
                dfltSummary).avgVo2))
        ∧ (∀ r, wPlateauData.find? (fun q => q.timeInSeconds ≥
              (((calculateKeyMetricsForData wPlateauData).plateauStageSummary.length : ℚ) - 1)
                * STAGE_DURATION_SECONDS) = some r →
            (calculateKeyMetricsForData wPlateauData).plateauTime = some r.t)
        ∧ (wPlateauData.find? (fun q => q.timeInSeconds ≥
              (((calculateKeyMetricsForData wPlateauData).plateauStageSummary.length : ℚ) - 1)
                * STAGE_DURATION_SECONDS) = none →
            (calculateKeyMetricsForData wPlateauData).plateauTime
              = (wPlateauData.getLast?).map Row.t))) := by
  refine ⟨by decide, ?_⟩
  exact c3_plateau_characterization wPlateauData (by decide)

/-! ## Detection-phase invariants (used by C1, C2 and C6) -/

theorem scanStep_fst_length (stageIdx : Nat) (col : Channel) (m v : ℚ)
    (st : DetectState) (j : Nat) :
    ((scanStep stageIdx col m v st j).1).length = st.1.length := by
  obtain ⟨stage, audit, removed⟩ := st
  unfold scanStep
  dsimp only
  cases h1 : stage[j]? with
  | none => rfl
  | some row =>
    dsimp only
    cases h2 : row.get col with
    | none => rfl
    | some x =>
      dsimp only
      by_cases h3 : isOutlier m v x = true
      · rw [if_pos h3]
        exact List.length_set stage j _
      · rw [if_neg h3]

theorem Row.t_set (r : Row) (c : Channel) (v : Option ℚ) :
    (r.set c v).t = r.t := by
  cases c <;> rfl

theorem map_t_set_of_t_eq (stage : List Row) (j : Nat) (row newRow : Row)
    (hj : stage[j]? = some row) (hT : newRow.t = row.t) :
    (stage.set j newRow).map Row.t = stage.map Row.t := by
  apply List.ext_getElem?
  intro k
  rw [List.getElem?_map, List.getElem?_map, List.getElem?_set]
  by_cases hk : j = k
  · subst hk
    have hlt : j < stage.length := by
      by_contra h
      rw [List.getElem?_eq_none (by omega)] at hj
      cases hj
    rw [if_pos rfl, if_pos hlt, hj]
    simp [hT]
  · rw [if_neg hk]

theorem scanStep_fst_t (stageIdx : Nat) (col : Channel) (m v : ℚ)
    (st : DetectState) (j : Nat) :
    ((scanStep stageIdx col m v st j).1).map Row.t = st.1.map Row.t := by
  obtain ⟨stage, audit, removed⟩ := st
  unfold scanStep
  dsimp only
  cases h1 : stage[j]? with
  | none => rfl
  | some row =>
    dsimp only
    cases h2 : row.get col with
    | none => rfl
    | some x =>
      dsimp only
      by_cases h3 : isOutlier m v x = true
      · rw [if_pos h3]
        exact map_t_set_of_t_eq stage j row _ h1 (Row.t_set row col none)
      · rw [if_neg h3]

theorem mem_of_getElem?_row (l : List Row) (j : Nat) (a : Row)
    (h : l[j]? = some a) : a ∈ l := by
  have hj : j < l.length := by
    by_contra hc
    rw [List.getElem?_eq_none (by omega)] at h
    cases h
  rw [List.getElem?_eq_getElem hj] at h
  cases h
  exact List.getElem_mem hj

theorem nodup_t_ne (l : List Row) (hnd : (l.map Row.t).Nodup)
    (i j : Nat) (a b : Row) (hi : l[i]? = some a) (hj : l[j]? = some b)
    (hij : i ≠ j) : a.t ≠ b.t := by
  have hi' : i < l.length := by
    by_contra hc
    rw [List.getElem?_eq_none (by omega)] at hi
    cases hi
  have hj' : j < l.length := by
    by_contra hc
    rw [List.getElem?_eq_none (by omega)] at hj
    cases hj
  rw [List.getElem?_eq_getElem hi'] at hi
  rw [List.getElem?_eq_getElem hj'] at hj
  cases hi
  cases hj
  intro hT
  have hi2 : i < (l.map Row.t).length := by simpa using hi'
  have hj2 : j < (l.map Row.t).length := by simpa using hj'
  have h1 : (l.map Row.t)[i] = (l.map Row.t)[j] := by
    rw [List.getElem_map, List.getElem_map]
    exact hT
  exact hij ((List.Nodup.getElem_inj_iff hnd).1 h1)

theorem mapGet_isSome_iff_mem (m : AuditMap) (k : AuditKey) :
    (mapGet m k).isSome ↔ k ∈ auditKeys m := by
  induction m with
  | nil => simp [mapGet_nil, auditKeys]
  | cons p rest ih =>
    rw [mapGet_cons]
    by_cases hp : p.1 = k
    · simp [hp, auditKeys]
    · simp only [if_neg hp, auditKeys, List.map_cons, List.mem_cons]
      rw [ih]
      simp [auditKeys, Ne.symm hp]

theorem map_fn_set_of_eq {β : Type} (g : Row → β) (stage : List Row) (j : Nat)
    (row newRow : Row) (hj : stage[j]? = some row) (hG : g newRow = g row) :
    (stage.set j newRow).map g = stage.map g := by
  apply List.ext_getElem?
  intro k
  rw [List.getElem?_map, List.getElem?_map, List.getElem?_set]
  by_cases hk : j = k
  · subst hk
    have hlt : j < stage.length := by
      by_contra h
      rw [List.getElem?_eq_none (by omega)] at hj
      cases hj
    rw [if_pos rfl, if_pos hlt, hj]
    simp [hG]
  · rw [if_neg hk]

/-- Common shape of the two detection step functions: either the step is the
identity, or the row at the scanned index has a live value on channel `c`
and the step nulls it, logs one entry under key (time, `c`), and increments
the removal counter. -/
def StepOk (f : DetectState → Nat → DetectState) (c : Channel) : Prop :=
  ∀ (stage : List Row) (audit : AuditMap) (removed : ℤ) (j : Nat),
    f (stage, audit, removed) j = (stage, audit, removed)
    ∨ ∃ row x entry,
        stage[j]? = some row
        ∧ row.get c = some x
        ∧ f (stage, audit, removed) j
          = (stage.set j (row.set c none),
             mapSet audit (row.t, c) entry, removed + 1)

/-- Invariants of folding a detection step over any index list: length and
time labels preserved, other channels preserved, unscanned indices
untouched, new audit keys drawn from the stage's times on the scanned
channel, key-nodup preserved, and — when the stage's times are distinct and
no live value's key is already present — the audit growth equals the counter
growth, with the live-key property propagated. -/
theorem foldOk (f : DetectState → Nat → DetectState) (c : Channel)
    (hf : StepOk f c) :
    ∀ (idxs : List Nat) (stage : List Row) (audit : AuditMap) (removed : ℤ),
      ((idxs.foldl f (stage, audit, removed)).1.length = stage.length)
      ∧ ((idxs.foldl f (stage, audit, removed)).1.map Row.t = stage.map Row.t)
      ∧ (∀ c', c' ≠ c →
          (idxs.foldl f (stage, audit, removed)).1.map (fun r => r.get c')
            = stage.map (fun r => r.get c'))
      ∧ (∀ j', j' ∉ idxs →
          (idxs.foldl f (stage, audit, removed)).1[j']? = stage[j']?)
      ∧ (∀ k ∈ auditKeys (idxs.foldl f (stage, audit, removed)).2.1,
          k ∈ auditKeys audit ∨ (k.1 ∈ stage.map Row.t ∧ k.2 = c))
      ∧ (NodupKeys audit → NodupKeys (idxs.foldl f (stage, audit, removed)).2.1)
      ∧ ((stage.map Row.t).Nodup →
         (∀ k ∈ auditKeys audit, k.2 = c →
            ∀ (j : Nat) (row : Row), stage[j]? = some row →
              (row.get c).isSome = true → k.1 ≠ row.t) →
         (((idxs.foldl f (stage, audit, removed)).2.1.length : ℤ) - audit.length
            = (idxs.foldl f (stage, audit, removed)).2.2 - removed)
         ∧ (∀ k ∈ auditKeys (idxs.foldl f (stage, audit, removed)).2.1,
              k.2 = c →
              ∀ (j : Nat) (row : Row),
                (idxs.foldl f (stage, audit, removed)).1[j]? = some row →
                (row.get c).isSome = true → k.1 ≠ row.t)) := by
  intro idxs
  induction idxs with
  | nil =>
    intro stage audit removed
    exact ⟨rfl, rfl, fun _ _ => rfl, fun _ _ => rfl, fun k hk => Or.inl hk,
      fun h => h, fun _ hlive =>
        ⟨show (audit.length : ℤ) - audit.length = removed - removed by omega,
         hlive⟩⟩
  | cons j idxs ih =>
    intro stage audit removed
    rw [List.foldl_cons]
    rcases hf stage audit removed j with hid | ⟨row, x, entry, hrow, hx, heq⟩
    · rw [hid]
      obtain ⟨h1, h2, h3, h4, h5, h6, h7⟩ := ih stage audit removed
      exact ⟨h1, h2, h3,
        fun j' hj' => h4 j' (fun hmem => hj' (List.mem_cons_of_mem _ hmem)),
        h5, h6, h7⟩
    · rw [heq]
      obtain ⟨h1, h2, h3, h4, h5, h6, h7⟩ :=
        ih (stage.set j (row.set c none)) (mapSet audit (row.t, c) entry)
          (removed + 1)
      have hjlt : j < stage.length := by
        by_contra hc
        rw [List.getElem?_eq_none (by omega)] at hrow
        cases hrow
      have hTset : (stage.set j (row.set c none)).map Row.t = stage.map Row.t :=
        map_fn_set_of_eq Row.t stage j row _ hrow (Row.t_set row c none)
      refine ⟨?_, ?_, ?_, ?_, ?_, ?_, ?_⟩
      · rw [h1, List.length_set]
      · rw [h2, hTset]
      · intro c' hc'
        rw [h3 c' hc']
        exact map_fn_set_of_eq (fun r => r.get c') stage j row _ hrow
          (by simp [Row.get_set, hc'])
      · intro j' hj'
        have hne : j' ≠ j := fun h => hj' (h ▸ List.mem_cons_self j idxs)
        rw [h4 j' (fun hmem => hj' (List.mem_cons_of_mem _ hmem)),
          List.getElem?_set, if_neg (fun h => hne h.symm)]
      · intro k hk
        rcases h5 k hk with hold | hnew
        · rcases (mem_auditKeys_mapSet audit (row.t, c) k entry).1 hold with
            rfl | hstill
          · exact Or.inr
              ⟨List.mem_map_of_mem Row.t (mem_of_getElem?_row stage j row hrow),
               rfl⟩
          · exact Or.inl hstill
        · rw [hTset] at hnew
          exact Or.inr hnew
      · intro hnd
        exact h6 (nodupKeys_mapSet audit (row.t, c) entry hnd)
      · intro hndT hlive
        have hndT2 : ((stage.set j (row.set c none)).map Row.t).Nodup := by
          rw [hTset]
          exact hndT
        have hlive2 : ∀ k ∈ auditKeys (mapSet audit (row.t, c) entry),
            k.2 = c → ∀ (j' : Nat) (row' : Row),
              (stage.set j (row.set c none))[j']? = some row' →
              (row'.get c).isSome = true → k.1 ≠ row'.t := by
          intro k hk hkc j' row' hrow' hlv
          rcases (mem_auditKeys_mapSet audit (row.t, c) k entry).1 hk with
            rfl | hold
          · by_cases hjj : j = j'
            · subst hjj
              rw [List.getElem?_set, if_pos rfl, if_pos hjlt] at hrow'
              cases hrow'
              rw [Row.get_set, if_pos rfl] at hlv
              simp at hlv
            · rw [List.getElem?_set, if_neg hjj] at hrow'
              exact nodup_t_ne stage hndT j j' row row' hrow hrow' hjj
          · by_cases hjj : j = j'
            · subst hjj
              rw [List.getElem?_set, if_pos rfl, if_pos hjlt] at hrow'
              cases hrow'
              rw [Row.get_set, if_pos rfl] at hlv
              simp at hlv
            · rw [List.getElem?_set, if_neg hjj] at hrow'
              exact hlive k hold hkc j' row' hrow' hlv
        obtain ⟨hcount, hliveout⟩ := h7 hndT2 hlive2
        refine ⟨?_, hliveout⟩
        have hfresh : (row.t, c) ∉ auditKeys audit := by
          intro hmem
          exact hlive (row.t, c) hmem rfl j row hrow (by rw [hx]; rfl) rfl
        have hlen : (mapSet audit (row.t, c) entry).length = audit.length + 1 := by
          rw [length_mapSet]
          rw [if_neg (fun hs =>
            hfresh ((mapGet_isSome_iff_mem audit (row.t, c)).1 hs))]
        rw [hlen] at hcount
        push_cast at hcount ⊢
        omega

theorem scanStep_stepOk (stageIdx : Nat) (col : Channel) (m v : ℚ) :
    StepOk (scanStep stageIdx col m v) col := by
  intro stage audit removed j
  unfold scanStep
  dsimp only
  cases h1 : stage[j]? with
  | none => exact Or.inl rfl
  | some row =>
    dsimp only
    cases h2 : row.get col with
    | none => exact Or.inl rfl
    | some x =>
      dsimp only
      by_cases h3 : isOutlier m v x = true
      · rw [if_pos h3]
        exact Or.inr ⟨row, x, _, rfl, h2, rfl⟩
      · rw [if_neg h3]
        exact Or.inl rfl

theorem hrStep_stepOk (stageIdx : Nat) : StepOk (hrStep stageIdx) .hr := by
  intro stage audit removed j
  unfold hrStep
  dsimp only
  cases h1 : stage[j]? with
  | none => exact Or.inl rfl
  | some row =>
    dsimp only
    cases h2 : row.hr with
    | none => exact Or.inl rfl
    | some hv =>
      dsimp only
      split
      · exact Or.inr ⟨row, hv, _, rfl, h2, rfl⟩
      · exact Or.inl rfl

/-- Freshness of the audit map for the current rows: no logged key names the
time and channel of a value that is still live in the data. -/
def FreshKeys (data : List Row) (audit : AuditMap) : Prop :=
  ∀ k ∈ auditKeys audit, ∀ row ∈ data, (row.get k.2).isSome = true →
    k.1 ≠ row.t

theorem freshKeys_to_channel (stage : List Row) (audit : AuditMap) (c : Channel)
    (h : FreshKeys stage audit) :
    ∀ k ∈ auditKeys audit, k.2 = c →
      ∀ (j : Nat) (row : Row), stage[j]? = some row →
        (row.get c).isSome = true → k.1 ≠ row.t := by
  intro k hk hkc j row hrow hlv
  exact h k hk row (mem_of_getElem?_row stage j row hrow) (by rw [hkc]; exact hlv)

/-- Bundled consequences of foldOk with the freshness invariant phrased over
all channels at once. -/
theorem foldPass (f : DetectState → Nat → DetectState) (c : Channel)
    (hf : StepOk f c) (idxs : List Nat) (stage : List Row) (audit : AuditMap)
    (removed : ℤ) :
    ((idxs.foldl f (stage, audit, removed)).1.length = stage.length)
    ∧ ((idxs.foldl f (stage, audit, removed)).1.map Row.t = stage.map Row.t)
    ∧ (∀ k ∈ auditKeys (idxs.foldl f (stage, audit, removed)).2.1,
        k ∈ auditKeys audit ∨ k.1 ∈ stage.map Row.t)
    ∧ ((stage.map Row.t).Nodup → FreshKeys stage audit →
        (((idxs.foldl f (stage, audit, removed)).2.1.length : ℤ) - audit.length
          = (idxs.foldl f (stage, audit, removed)).2.2 - removed)
        ∧ FreshKeys (idxs.foldl f (stage, audit, removed)).1
            (idxs.foldl f (stage, audit, removed)).2.1)
    ∧ (NodupKeys audit →
        NodupKeys (idxs.foldl f (stage, audit, removed)).2.1) := by
  obtain ⟨h1, h2, h3, h4, h5, h6, h7⟩ := foldOk f c hf idxs stage audit removed
  refine ⟨h1, h2, ?_, ?_, h6⟩
  · intro k hk
    rcases h5 k hk with hold | hnew
    · exact Or.inl hold
    · exact Or.inr hnew.1
  · intro hnd hfresh
    obtain ⟨hcount, hlive⟩ := h7 hnd (freshKeys_to_channel stage audit c hfresh)
    refine ⟨hcount, ?_⟩
    intro k hk row hrowmem hlv
    by_cases hkc : k.2 = c
    · rcases List.mem_iff_getElem?.1 hrowmem with ⟨j, hrow⟩
      exact hlive k hk hkc j row hrow (by rw [← hkc]; exact hlv)
    · have hkold : k ∈ auditKeys audit := by
        rcases h5 k hk with hold | hnew
        · exact hold
        · exact absurd hnew.2 hkc
      rcases List.mem_iff_getElem?.1 hrowmem with ⟨j, hrow⟩
      have hjlt : j < stage.length := by
        have hlt : j < (idxs.foldl f (stage, audit, removed)).1.length := by
          by_contra hc
          rw [List.getElem?_eq_none (by omega)] at hrow
          cases hrow
        omega
      have hrow0 : stage[j]? = some stage[j] := List.getElem?_eq_getElem hjlt
      have hgeq : row.get k.2 = (stage[j]).get k.2 := by
        have hmm := congrArg (fun l => l[j]?) (h3 k.2 hkc)
        simp only [List.getElem?_map, hrow, hrow0, Option.map_some'] at hmm
        exact Option.some.inj hmm
      have hteq : row.t = (stage[j]).t := by
        have hmm := congrArg (fun l => l[j]?) h2
        simp only [List.getElem?_map, hrow, hrow0, Option.map_some'] at hmm
        exact Option.some.inj hmm
      rw [hteq]
      exact hfresh k hkold stage[j] (List.getElem_mem hjlt)
        (by rw [← hgeq]; exact hlv)

/-- The per-channel 3SD pass preserves length and times, draws new keys from
the stage's times, grows the audit by exactly the removal count, and keeps
key freshness and key distinctness. -/
theorem detectCol_pass (stageIdx : Nat) (col : Channel) (stage : List Row)
    (audit : AuditMap) (removed : ℤ) :
    ((detectCol stageIdx col (stage, audit, removed)).1.length = stage.length)
    ∧ ((detectCol stageIdx col (stage, audit, removed)).1.map Row.t
        = stage.map Row.t)
    ∧ (∀ k ∈ auditKeys (detectCol stageIdx col (stage, audit, removed)).2.1,
        k ∈ auditKeys audit ∨ k.1 ∈ stage.map Row.t)
    ∧ ((stage.map Row.t).Nodup → FreshKeys stage audit →
        (((detectCol stageIdx col (stage, audit, removed)).2.1.length : ℤ)
            - audit.length
          = (detectCol stageIdx col (stage, audit, removed)).2.2 - removed)
        ∧ FreshKeys (detectCol stageIdx col (stage, audit, removed)).1
            (detectCol stageIdx col (stage, audit, removed)).2.1)
    ∧ (NodupKeys audit →
        NodupKeys (detectCol stageIdx col (stage, audit, removed)).2.1) := by
  unfold detectCol
  dsimp only
  by_cases hv : ((stage.drop 3).filterMap (fun r => r.get col)).length < 2
  · rw [if_pos hv]
    exact ⟨rfl, rfl, fun k hk => Or.inl hk,
      fun _ hfresh =>
        ⟨show (audit.length : ℤ) - audit.length = removed - removed by omega,
         hfresh⟩,
      fun h => h⟩
  · rw [if_neg hv]
    exact foldPass _ col (scanStep_stepOk stageIdx col _ _) _ stage audit removed

/-- Folding the 3SD pass over a list of channels keeps the same invariants. -/
theorem colsFold_pass (stageIdx : Nat) (cs : List Channel) :
    ∀ (stage : List Row) (audit : AuditMap) (removed : ℤ),
    ((cs.foldl (fun s c => detectCol stageIdx c s)
        (stage, audit, removed)).1.length = stage.length)
    ∧ ((cs.foldl (fun s c => detectCol stageIdx c s)
        (stage, audit, removed)).1.map Row.t = stage.map Row.t)
    ∧ (∀ k ∈ auditKeys (cs.foldl (fun s c => detectCol stageIdx c s)
        (stage, audit, removed)).2.1,
        k ∈ auditKeys audit ∨ k.1 ∈ stage.map Row.t)
    ∧ ((stage.map Row.t).Nodup → FreshKeys stage audit →
        (((cs.foldl (fun s c => detectCol stageIdx c s)
              (stage, audit, removed)).2.1.length : ℤ) - audit.length
          = (cs.foldl (fun s c => detectCol stageIdx c s)
              (stage, audit, removed)).2.2 - removed)
        ∧ FreshKeys (cs.foldl (fun s c => detectCol stageIdx c s)
              (stage, audit, removed)).1
            (cs.foldl (fun s c => detectCol stageIdx c s)
              (stage, audit, removed)).2.1)
    ∧ (NodupKeys audit →
        NodupKeys (cs.foldl (fun s c => detectCol stageIdx c s)
          (stage, audit, removed)).2.1) := by
  induction cs with
  | nil =>
    intro stage audit removed
    exact ⟨rfl, rfl, fun k hk => Or.inl hk,
      fun _ hfresh =>
        ⟨show (audit.length : ℤ) - audit.length = removed - removed by omega,
         hfresh⟩,
      fun h => h⟩
  | cons c cs ih =>
    intro stage audit removed
    rw [List.foldl_cons]
    rcases hmid : detectCol stageIdx c (stage, audit, removed) with
      ⟨mstage, maudit, mremoved⟩
    obtain ⟨d1, d2, d3, d4, d5⟩ := detectCol_pass stageIdx c stage audit removed
    rw [hmid] at d1 d2 d3 d4 d5
    dsimp only at d1 d2 d3 d4 d5
    obtain ⟨i1, i2, i3, i4, i5⟩ := ih mstage maudit mremoved
    refine ⟨i1.trans d1, i2.trans d2, ?_, ?_, fun h => i5 (d5 h)⟩
    · intro k hk
      rcases i3 k hk with hmidk | htime
      · rcases d3 k hmidk with hold | htime0
        · exact Or.inl hold
        · exact Or.inr htime0
      · rw [d2] at htime
        exact Or.inr htime
    · intro hnd hfresh
      obtain ⟨dc, df⟩ := d4 hnd hfresh
      have hndm : (mstage.map Row.t).Nodup := by rw [d2]; exact hnd
      obtain ⟨ic, iff2⟩ := i4 hndm df
      exact ⟨by omega, iff2⟩

/-- The full per-stage pass as run by processStage: the six 3SD column passes
followed by the heart-rate pass over every index of the stage. -/
theorem stagePass_pass (si : Nat) (stage : List Row) (audit : AuditMap)
    (removed : ℤ) :
    (((List.range (OUTLIER_COLS.foldl (fun s c => detectCol si c s)
          (stage, audit, removed)).1.length).foldl (hrStep si)
        (OUTLIER_COLS.foldl (fun s c => detectCol si c s)
          (stage, audit, removed))).1.length = stage.length)
    ∧ (((List.range (OUTLIER_COLS.foldl (fun s c => detectCol si c s)
          (stage, audit, removed)).1.length).foldl (hrStep si)
        (OUTLIER_COLS.foldl (fun s c => detectCol si c s)
          (stage, audit, removed))).1.map Row.t = stage.map Row.t)
    ∧ (∀ k ∈ auditKeys ((List.range (OUTLIER_COLS.foldl
          (fun s c => detectCol si c s) (stage, audit, removed)).1.length).foldl
          (hrStep si) (OUTLIER_COLS.foldl (fun s c => detectCol si c s)
            (stage, audit, removed))).2.1,
        k ∈ auditKeys audit ∨ k.1 ∈ stage.map Row.t)
    ∧ ((stage.map Row.t).Nodup → FreshKeys stage audit →
        ((((List.range (OUTLIER_COLS.foldl (fun s c => detectCol si c s)
              (stage, audit, removed)).1.length).foldl (hrStep si)
            (OUTLIER_COLS.foldl (fun s c => detectCol si c s)
              (stage, audit, removed))).2.1.length : ℤ) - audit.length
          = ((List.range (OUTLIER_COLS.foldl (fun s c => detectCol si c s)
              (stage, audit, removed)).1.length).foldl (hrStep si)
            (OUTLIER_COLS.foldl (fun s c => detectCol si c s)
              (stage, audit, removed))).2.2 - removed)
        ∧ FreshKeys ((List.range (OUTLIER_COLS.foldl
              (fun s c => detectCol si c s) (stage, audit, removed)).1.length).foldl
              (hrStep si) (OUTLIER_COLS.foldl (fun s c => detectCol si c s)
                (stage, audit, removed))).1
            ((List.range (OUTLIER_COLS.foldl (fun s c => detectCol si c s)
              (stage, audit, removed)).1.length).foldl (hrStep si)
              (OUTLIER_COLS.foldl (fun s c => detectCol si c s)
                (stage, audit, removed))).2.1)
    ∧ (NodupKeys audit →
        NodupKeys ((List.range (OUTLIER_COLS.foldl (fun s c => detectCol si c s)
          (stage, audit, removed)).1.length).foldl (hrStep si)
          (OUTLIER_COLS.foldl (fun s c => detectCol si c s)
            (stage, audit, removed))).2.1) := by
  rcases hmid : OUTLIER_COLS.foldl (fun s c => detectCol si c s)
      (stage, audit, removed) with ⟨mstage, maudit, mremoved⟩
  obtain ⟨d1, d2, d3, d4, d5⟩ := colsFold_pass si OUTLIER_COLS stage audit removed
  rw [hmid] at d1 d2 d3 d4 d5
  dsimp only at d1 d2 d3 d4 d5
  dsimp only
  obtain ⟨i1, i2, i3, i4, i5⟩ := foldPass (hrStep si) .hr (hrStep_stepOk si)
    (List.range mstage.length) mstage maudit mremoved
  refine ⟨i1.trans d1, i2.trans d2, ?_, ?_, fun h => i5 (d5 h)⟩
  · intro k hk
    rcases i3 k hk with hmidk | htime
    · rcases d3 k hmidk with hold | htime0
      · exact Or.inl hold
      · exact Or.inr htime0
    · rw [d2] at htime
      exact Or.inr htime
  · intro hnd hfresh
    obtain ⟨dc, df⟩ := d4 hnd hfresh
    have hndm : (mstage.map Row.t).Nodup := by rw [d2]; exact hnd
    obtain ⟨ic, iff2⟩ := i4 hndm df
    exact ⟨by omega, iff2⟩

theorem drop_min {α : Type _} (l : List α) (n : Nat) :
    l.drop n = l.drop (min n l.length) := by
  by_cases h : n ≤ l.length
  · rw [min_eq_left h]
  · rw [min_eq_right (by omega), List.drop_length,
      List.drop_eq_nil_of_le (by omega)]

theorem take_drop_splice {α : Type _} (d : List α) (s n : Nat) :
    d.take s ++ ((d.drop s).take n
      ++ d.drop (s + ((d.drop s).take n).length)) = d := by
  have h1 : d.drop (s + ((d.drop s).take n).length)
      = (d.drop s).drop (((d.drop s).take n).length) := by
    rw [List.drop_drop, Nat.add_comm]
  have h2 : (d.drop s).drop (((d.drop s).take n).length)
      = (d.drop s).drop n := by
    rw [List.length_take, ← drop_min]
  rw [h1, h2, List.take_append_drop, List.take_append_drop]

theorem mem_take_mono {α : Type _} (l : List α) (a : α) (m₁ m₂ : Nat)
    (h : m₁ ≤ m₂) (hm : a ∈ l.take m₁) : a ∈ l.take m₂ := by
  have he : l.take m₁ = (l.take m₂).take m₁ := by
    rw [List.take_take, min_eq_left h]
  rw [he] at hm
  exact List.take_subset _ _ hm

theorem mem_take_of_drop_take {α : Type _} (l : List α) (a : α) (s n : Nat)
    (hm : a ∈ (l.drop s).take n) : a ∈ l.take (s + n) := by
  rw [List.take_add]
  exact List.mem_append_right _ hm

/-- When the stage slice at index `i` is shorter than the fixed row count and
`i` is the final stage index, processStage leaves its accumulator unchanged
(lines 293-296 of the source). -/
theorem processStage_skip (ns i : Nat) (d : List Row) (a : AuditMap) (r : ℤ)
    (hns : i = ns - 1) (hlast : d.length < (i + 1) * STAGE_ROWS) :
    processStage ns (d, a, r) i = (d, a, r) := by
  unfold processStage
  dsimp only
  split
  · rfl
  next hcond =>
    exfalso
    apply hcond
    refine ⟨?_, hns⟩
    simp only [List.length_take, List.length_drop]
    simp only [STAGE_ROWS] at hlast ⊢
    omega

theorem splice_getElem?_high {α : Type _} (d B : List α) (s n : Nat) (j : Nat)
    (hB : B.length = ((d.drop s).take n).length)
    (hs : s < d.length) (hj : s + n ≤ j) :
    (d.take s ++ B ++ d.drop (s + ((d.drop s).take n).length))[j]? = d[j]? := by
  have hlen : ((d.drop s).take n).length = min n (d.length - s) := by
    rw [List.length_take, List.length_drop]
  rw [List.getElem?_append_right (by
    simp only [List.length_append, List.length_take, hB, hlen]
    omega)]
  rw [List.getElem?_drop]
  have harg : s + ((d.drop s).take n).length
      + (j - (d.take s ++ B).length) = j := by
    simp only [List.length_append, List.length_take, hB, hlen]
    omega
  rw [harg]

/-- Frame of one stage step: length and time labels are preserved, rows past
the stage window are untouched, and new audit keys carry times of rows
inside the first `(i+1)*STAGE_ROWS` positions. -/
theorem processStage_frame (ns i : Nat) (d : List Row) (a : AuditMap) (r : ℤ)
    (hs : i * STAGE_ROWS < d.length) :
    ((processStage ns (d, a, r) i).1.length = d.length)
    ∧ ((processStage ns (d, a, r) i).1.map Row.t = d.map Row.t)
    ∧ (∀ j, (i + 1) * STAGE_ROWS ≤ j →
        (processStage ns (d, a, r) i).1[j]? = d[j]?)
    ∧ (∀ k ∈ auditKeys (processStage ns (d, a, r) i).2.1,
        k ∈ auditKeys a ∨ k.1 ∈ (d.map Row.t).take ((i + 1) * STAGE_ROWS)) := by
  unfold processStage
  dsimp only
  split
  · exact ⟨rfl, rfl, fun j hj => rfl, fun k hk => Or.inl hk⟩
  next hcond =>
    dsimp only
    obtain ⟨p1, p2, p3, p4, p5⟩ := stagePass_pass (i + 1)
      ((d.drop (i * STAGE_ROWS)).take
        (min ((i + 1) * STAGE_ROWS) d.length - i * STAGE_ROWS)) a r
    refine ⟨?_, ?_, ?_, ?_⟩
    · simp only [List.length_append, p1, List.length_take, List.length_drop]
      simp only [STAGE_ROWS] at hs ⊢
      omega
    · simp only [List.map_append, p2]
      rw [List.append_assoc]
      have hsp := congrArg (List.map Row.t) (take_drop_splice d (i * STAGE_ROWS)
        (min ((i + 1) * STAGE_ROWS) d.length - i * STAGE_ROWS))
      rw [List.map_append, List.map_append] at hsp
      exact hsp
    · intro j hj
      exact splice_getElem?_high d _ (i * STAGE_ROWS)
        (min ((i + 1) * STAGE_ROWS) d.length - i * STAGE_ROWS) j p1 hs
        (by simp only [STAGE_ROWS] at hj ⊢; omega)
    · intro k hk
      rcases p3 k hk with hold | htime
      · exact Or.inl hold
      · right
        rw [List.map_take, List.map_drop] at htime
        have h1 := mem_take_of_drop_take (d.map Row.t) k.1 _ _ htime
        exact mem_take_mono _ _ _ _
          (by simp only [STAGE_ROWS] at hs ⊢; omega) h1

theorem sublist_drop_take {α : Type _} (l : List α) (s n : Nat) :
    ((l.drop s).take n).Sublist l :=
  ((l.drop s).take_sublist n).trans (l.drop_sublist s)

/-- Accounting invariants of one stage step: the audit map grows by exactly
the growth of the removal counter, keys stay fresh for the surviving values,
and key distinctness is preserved. -/
theorem processStage_inv (ns i : Nat) (d : List Row) (a : AuditMap) (r : ℤ)
    (hnd : (d.map Row.t).Nodup) (hfresh : FreshKeys d a) :
    (((processStage ns (d, a, r) i).2.1.length : ℤ) - a.length
        = (processStage ns (d, a, r) i).2.2 - r)
    ∧ FreshKeys (processStage ns (d, a, r) i).1 (processStage ns (d, a, r) i).2.1
    ∧ (NodupKeys a → NodupKeys (processStage ns (d, a, r) i).2.1) := by
  unfold processStage
  dsimp only
  split
  · exact ⟨show (a.length : ℤ) - a.length = r - r by omega, hfresh, fun h => h⟩
  next hcond =>
    dsimp only
    obtain ⟨p1, p2, p3, p4, p5⟩ := stagePass_pass (i + 1)
      ((d.drop (i * STAGE_ROWS)).take
        (min ((i + 1) * STAGE_ROWS) d.length - i * STAGE_ROWS)) a r
    have hsub : (((d.drop (i * STAGE_ROWS)).take
        (min ((i + 1) * STAGE_ROWS) d.length - i * STAGE_ROWS)).map Row.t).Sublist
        (d.map Row.t) := by
      rw [List.map_take, List.map_drop]
      exact sublist_drop_take (d.map Row.t) _ _
    have hndstage : (((d.drop (i * STAGE_ROWS)).take
        (min ((i + 1) * STAGE_ROWS) d.length - i * STAGE_ROWS)).map Row.t).Nodup :=
      hnd.sublist hsub
    have hfreshstage : FreshKeys ((d.drop (i * STAGE_ROWS)).take
        (min ((i + 1) * STAGE_ROWS) d.length - i * STAGE_ROWS)) a := by
      intro k hk row hrow hlv
      exact hfresh k hk row
        ((sublist_drop_take d (i * STAGE_ROWS) _).subset hrow) hlv
    obtain ⟨pc, pf⟩ := p4 hndstage hfreshstage
    refine ⟨pc, ?_, p5⟩
    -- freshness through the splice
    have hsp := congrArg (List.map Row.t) (take_drop_splice d (i * STAGE_ROWS)
      (min ((i + 1) * STAGE_ROWS) d.length - i * STAGE_ROWS))
    rw [List.map_append, List.map_append] at hsp
    have hnd2 : ((d.take (i * STAGE_ROWS)).map Row.t
        ++ (((d.drop (i * STAGE_ROWS)).take
            (min ((i + 1) * STAGE_ROWS) d.length - i * STAGE_ROWS)).map Row.t
          ++ (d.drop (i * STAGE_ROWS + ((d.drop (i * STAGE_ROWS)).take
            (min ((i + 1) * STAGE_ROWS) d.length
              - i * STAGE_ROWS)).length)).map Row.t)).Nodup := by
      rw [hsp]
      exact hnd
    rw [List.nodup_append] at hnd2
    obtain ⟨hndA, hndBC, hdisjA⟩ := hnd2
    rw [List.nodup_append] at hndBC
    obtain ⟨hndB, hndC, hdisjBC⟩ := hndBC
    intro k hk row hrowmem hlv
    rcases List.mem_append.1 hrowmem with hrow1 | hrowC
    · rcases List.mem_append.1 hrow1 with hrowA | hrowB
      · -- row in the prefix before the stage
        rcases p3 k hk with hold | htime
        · exact hfresh k hold row (List.take_subset _ d hrowA) hlv
        · intro hkt
          exact hdisjA (List.mem_map_of_mem Row.t hrowA)
            (List.mem_append_left _ (hkt ▸ htime))
      · -- row in the processed stage slice
        exact pf k hk row hrowB hlv
    · -- row in the suffix after the stage
      rcases p3 k hk with hold | htime
      · exact hfresh k hold row (List.drop_subset _ d hrowC) hlv
      · intro hkt
        exact hdisjBC (hkt ▸ htime) (List.mem_map_of_mem Row.t hrowC)

/-- Folding the stage steps preserves times, grows the audit with the
removal counter, and keeps key freshness and distinctness. -/
theorem detect_foldl_inv (ns : Nat) (data0 : List Row)
    (hnd0 : (data0.map Row.t).Nodup) :
    ∀ (idxs : List Nat),
      (∀ i ∈ idxs, i * STAGE_ROWS < data0.length) →
    ∀ (d : List Row) (a : AuditMap) (r : ℤ),
      d.map Row.t = data0.map Row.t → FreshKeys d a → NodupKeys a →
      ((idxs.foldl (processStage ns) (d, a, r)).1.map Row.t = data0.map Row.t)
      ∧ (((idxs.foldl (processStage ns) (d, a, r)).2.1.length : ℤ) - a.length
          = (idxs.foldl (processStage ns) (d, a, r)).2.2 - r)
      ∧ FreshKeys (idxs.foldl (processStage ns) (d, a, r)).1
          (idxs.foldl (processStage ns) (d, a, r)).2.1
      ∧ NodupKeys (idxs.foldl (processStage ns) (d, a, r)).2.1 := by
  intro idxs
  induction idxs with
  | nil =>
    intro _ d a r hmap hfresh hndk
    exact ⟨hmap, show (a.length : ℤ) - a.length = r - r by omega, hfresh, hndk⟩
  | cons i idxs ih =>
    intro hlt d a r hmap hfresh hndk
    rw [List.foldl_cons]
    have hnd : (d.map Row.t).Nodup := by rw [hmap]; exact hnd0
    have hlen : d.length = data0.length := by
      have hc := congrArg List.length hmap
      simpa using hc
    have hs : i * STAGE_ROWS < d.length := by
      rw [hlen]
      exact hlt i (List.mem_cons_self i idxs)
    obtain ⟨f1, f2, f3, f4⟩ := processStage_frame ns i d a r hs
    obtain ⟨v1, v2, v3⟩ := processStage_inv ns i d a r hnd hfresh
    rcases hmid : processStage ns (d, a, r) i with ⟨md, ma, mr⟩
    rw [hmid] at f2 v1 v2 v3
    dsimp only at f2 v1 v2 v3
    obtain ⟨i1, i2, i3, i4⟩ := ih (fun x hx => hlt x (List.mem_cons_of_mem _ hx))
      md ma mr (f2.trans hmap) v2 (v3 hndk)
    exact ⟨i1, by omega, i3, i4⟩

/-- Invariants of the whole detection phase: times preserved, one audit
entry per counted removal, keys fresh for surviving values, keys distinct. -/
theorem detectPhase_inv (data : List Row) (hnd : (data.map Row.t).Nodup) :
    ((detectPhase data).1.map Row.t = data.map Row.t)
    ∧ (((detectPhase data).2.1.length : ℤ) = (detectPhase data).2.2)
    ∧ FreshKeys (detectPhase data).1 (detectPhase data).2.1
    ∧ NodupKeys (detectPhase data).2.1 := by
  unfold detectPhase
  dsimp only
  obtain ⟨h1, h2, h3, h4⟩ := detect_foldl_inv
    ((data.length + (STAGE_ROWS - 1)) / STAGE_ROWS) data hnd
    (List.range ((data.length + (STAGE_ROWS - 1)) / STAGE_ROWS))
    (by
      intro i hi
      rw [List.mem_range] at hi
      simp only [STAGE_ROWS] at hi ⊢
      omega)
    data [] 0 rfl
    (by intro k hk; simp [auditKeys] at hk)
    List.nodup_nil
  refine ⟨h1, ?_, h3, h4⟩
  simp only [List.length_nil] at h2
  omega

/-- Row and key frame of the detection fold when the last stage is partial. -/
theorem detect_foldl_frame (data0 : List Row)
    (hpart : data0.length % STAGE_ROWS ≠ 0) :
    ∀ (idxs : List Nat),
      (∀ i ∈ idxs, i < (data0.length + (STAGE_ROWS - 1)) / STAGE_ROWS) →
    ∀ (d : List Row) (a : AuditMap) (r : ℤ),
      d.map Row.t = data0.map Row.t →
      (∀ j, data0.length - data0.length % STAGE_ROWS ≤ j → d[j]? = data0[j]?) →
      (∀ k ∈ auditKeys a, k.1 ∈ (data0.map Row.t).take
          (data0.length - data0.length % STAGE_ROWS)) →
      ((idxs.foldl (processStage
            ((data0.length + (STAGE_ROWS - 1)) / STAGE_ROWS)) (d, a, r)).1.map
          Row.t = data0.map Row.t)
      ∧ (∀ j, data0.length - data0.length % STAGE_ROWS ≤ j →
          (idxs.foldl (processStage
            ((data0.length + (STAGE_ROWS - 1)) / STAGE_ROWS)) (d, a, r)).1[j]?
            = data0[j]?)
      ∧ (∀ k ∈ auditKeys (idxs.foldl (processStage
            ((data0.length + (STAGE_ROWS - 1)) / STAGE_ROWS)) (d, a, r)).2.1,
          k.1 ∈ (data0.map Row.t).take
            (data0.length - data0.length % STAGE_ROWS)) := by
  intro idxs
  induction idxs with
  | nil =>
    intro _ d a r hmap hrows hkeys
    exact ⟨hmap, hrows, hkeys⟩
  | cons i idxs ih =>
    intro hlt d a r hmap hrows hkeys
    rw [List.foldl_cons]
    have hlen : d.length = data0.length := by
      have hc := congrArg List.length hmap
      simpa using hc
    have hi : i < (data0.length + (STAGE_ROWS - 1)) / STAGE_ROWS :=
      hlt i (List.mem_cons_self i idxs)
    by_cases hilast : i = (data0.length + (STAGE_ROWS - 1)) / STAGE_ROWS - 1
    · -- final stage: partial, hence skipped entirely
      rw [processStage_skip _ i d a r hilast
        (by
          rw [hlen]
          simp only [STAGE_ROWS] at hpart hilast ⊢
          omega)]
      exact ih (fun x hx => hlt x (List.mem_cons_of_mem _ hx)) d a r hmap
        hrows hkeys
    · -- earlier stage: its window sits before the partial stage
      have hs : i * STAGE_ROWS < d.length := by
        rw [hlen]
        simp only [STAGE_ROWS] at hi ⊢
        omega
      have hbound : (i + 1) * STAGE_ROWS
          ≤ data0.length - data0.length % STAGE_ROWS := by
        simp only [STAGE_ROWS] at hi hilast hpart ⊢
        omega
      obtain ⟨f1, f2, f3, f4⟩ := processStage_frame
        ((data0.length + (STAGE_ROWS - 1)) / STAGE_ROWS) i d a r hs
      rcases hmid : processStage
          ((data0.length + (STAGE_ROWS - 1)) / STAGE_ROWS) (d, a, r) i with
        ⟨md, ma, mr⟩
      rw [hmid] at f1 f2 f3 f4
      dsimp only at f1 f2 f3 f4
      refine ih (fun x hx => hlt x (List.mem_cons_of_mem _ hx)) md ma mr
        (f2.trans hmap) ?_ ?_
      · intro j hj
        rw [f3 j (by omega)]
        exact hrows j hj
      · intro k hk
        rcases f4 k hk with hold | htime
        · exact hkeys k hold
        · rw [hmap] at htime
          exact mem_take_mono _ _ _ _ hbound htime

/-- C6: for an input whose row count is not a multiple of STAGE_ROWS, the
detection phase leaves every row of the final partial stage exactly as in the
input, and every audit entry it creates names the time of a row of an earlier,
full stage. -/
theorem c6_partial_stage_untouched (data : List Row)
    (hpart : data.length % STAGE_ROWS ≠ 0) :
    ((detectPhase data).1.length = data.length)
    ∧ (∀ j, data.length - data.length % STAGE_ROWS ≤ j →
        (detectPhase data).1[j]? = data[j]?)
    ∧ (∀ k ∈ auditKeys (detectPhase data).2.1,
        k.1 ∈ (data.map Row.t).take
          (data.length - data.length % STAGE_ROWS)) := by
  unfold detectPhase
  dsimp only
  obtain ⟨h1, h2, h3⟩ := detect_foldl_frame data hpart
    (List.range ((data.length + (STAGE_ROWS - 1)) / STAGE_ROWS))
    (fun i hi => List.mem_range.1 hi) data [] 0 rfl (fun j hj => rfl)
    (by intro k hk; simp [auditKeys] at hk)
  refine ⟨?_, h2, h3⟩
  have hc := congrArg List.length h1
  simpa using hc

theorem c6_partial_stage_untouched_witness :
    gapSeries.length % STAGE_ROWS ≠ 0
    ∧ (detectPhase gapSeries).1[5]? = gapSeries[5]? :=
  ⟨by decide, (c6_partial_stage_untouched gapSeries (by decide)).2.1 5 (by decide)⟩

/-- One interpolation visit changes the audit length by exactly the change of
the removal counter, and keeps key distinctness. -/
theorem interpStep_count (col : Channel) (data : List Row) (audit : AuditMap)
    (removed interp : ℤ) (i : Nat) (hndk : NodupKeys audit) :
    (((interpStep col (data, audit, removed, interp) i).2.1.length : ℤ)
        - audit.length
      = (interpStep col (data, audit, removed, interp) i).2.2.1 - removed)
    ∧ NodupKeys (interpStep col (data, audit, removed, interp) i).2.1 := by
  have hid : ((audit.length : ℤ) - audit.length = removed - removed)
      ∧ NodupKeys audit := ⟨by omega, hndk⟩
  unfold interpStep
  dsimp only
  split
  · exact hid
  next row heqrow =>
    split
    · exact hid
    next heqval =>
      split
      next p n hp hn =>
        split
        next hgap =>
          split
          next pv nv hpv hnv =>
            split
            next e heqget =>
              split
              next hclose =>
                constructor
                · show ((mapDelete audit (row.t, col)).length : ℤ)
                      - audit.length = removed - 1 - removed
                  have hlen := length_mapDelete audit (row.t, col) hndk
                    (by rw [heqget]; rfl)
                  omega
                · exact nodupKeys_mapDelete audit (row.t, col) hndk
              next hfar =>
                constructor
                · simp only [length_mapSet, heqget, Option.isSome_some,
                    if_true]
                  omega
                · exact nodupKeys_mapSet audit _ _ hndk
            next heqget => exact hid
          next h1 h2 => exact hid
        next hgap => exact hid
      next h1 h2 => exact hid

theorem interpFold_count (col : Channel) :
    ∀ (idxs : List Nat) (data : List Row) (audit : AuditMap)
      (removed interp : ℤ), NodupKeys audit →
      (((idxs.foldl (interpStep col)
            (data, audit, removed, interp)).2.1.length : ℤ) - audit.length
        = (idxs.foldl (interpStep col)
            (data, audit, removed, interp)).2.2.1 - removed)
      ∧ NodupKeys (idxs.foldl (interpStep col)
          (data, audit, removed, interp)).2.1 := by
  intro idxs
  induction idxs with
  | nil =>
    intro data audit removed interp hndk
    exact ⟨show (audit.length : ℤ) - audit.length = removed - removed by omega,
      hndk⟩
  | cons i idxs ih =>
    intro data audit removed interp hndk
    rw [List.foldl_cons]
    rcases hmid : interpStep col (data, audit, removed, interp) i with
      ⟨mdata, maudit, mrem, mint⟩
    obtain ⟨c1, c2⟩ := interpStep_count col data audit removed interp i hndk
    rw [hmid] at c1 c2
    dsimp only at c1 c2
    obtain ⟨i1, i2⟩ := ih mdata maudit mrem mint c2
    exact ⟨by omega, i2⟩

theorem interpColsFold_count :
    ∀ (cs : List Channel) (data : List Row) (audit : AuditMap)
      (removed interp : ℤ), NodupKeys audit →
      (((cs.foldl (fun s c => (List.range s.1.length).foldl (interpStep c) s)
            (data, audit, removed, interp)).2.1.length : ℤ) - audit.length
        = (cs.foldl (fun s c => (List.range s.1.length).foldl (interpStep c) s)
            (data, audit, removed, interp)).2.2.1 - removed)
      ∧ NodupKeys (cs.foldl
          (fun s c => (List.range s.1.length).foldl (interpStep c) s)
          (data, audit, removed, interp)).2.1 := by
  intro cs
  induction cs with
  | nil =>
    intro data audit removed interp hndk
    exact ⟨show (audit.length : ℤ) - audit.length = removed - removed by omega,
      hndk⟩
  | cons c cs ih =>
    intro data audit removed interp hndk
    rw [List.foldl_cons]
    rcases hmid : (List.range
        ((data, audit, removed, interp) : InterpState).1.length).foldl
        (interpStep c) (data, audit, removed, interp) with
      ⟨mdata, maudit, mrem, mint⟩
    obtain ⟨c1, c2⟩ := interpFold_count c (List.range data.length) data audit
      removed interp hndk
    rw [show (List.range data.length).foldl (interpStep c)
        (data, audit, removed, interp)
      = (mdata, maudit, mrem, mint) from hmid] at c1 c2
    dsimp only at c1 c2
    obtain ⟨i1, i2⟩ := ih mdata maudit mrem mint c2
    exact ⟨by omega, i2⟩

/-- The interpolation phase grows the audit by exactly the growth of the
removal counter (deletions and their decrements cancel; upgrades change
neither), and keeps key distinctness. -/
theorem interpPhase_count (data : List Row) (audit : AuditMap)
    (removed interp : ℤ) (hndk : NodupKeys audit) :
    (((interpPhase (data, audit, removed, interp)).2.1.length : ℤ)
        - audit.length
      = (interpPhase (data, audit, removed, interp)).2.2.1 - removed)
    ∧ NodupKeys (interpPhase (data, audit, removed, interp)).2.1 := by
  unfold interpPhase
  exact interpColsFold_count OUTLIER_COLS data audit removed interp hndk

theorem entries_filter_partition (l : List AuditLogEntry) :
    (l.filter (fun e => e.action = AuditAction.removed)).length
      + (l.filter (fun e => e.action = AuditAction.interpolated)).length
    = l.length := by
  induction l with
  | nil => rfl
  | cons e l ih =>
    cases he : e.action <;> simp [List.filter_cons, he] <;> omega

/-- C2: for an input whose time labels are pairwise distinct, the number of
REMOVED audit entries plus the number of INTERPOLATED audit entries returned
by cleanAndInterpolateData equals the final outliersRemoved counter alone
(upgraded entries are counted once in outliersRemoved and once in
pointsInterpolated but appear as a single INTERPOLATED log entry, so the
claimed sum outliersRemoved + pointsInterpolated overshoots). -/
theorem c2_audit_counts (data : List Row) (bodyWeight : ℚ)
    (hnd : (data.map Row.t).Nodup) :
    ((((cleanAndInterpolateData data bodyWeight).2.1.filter
        (fun e => e.action = AuditAction.removed)).length : ℤ)
      + (((cleanAndInterpolateData data bodyWeight).2.1.filter
        (fun e => e.action = AuditAction.interpolated)).length : ℤ))
    = (cleanAndInterpolateData data bodyWeight).2.2.outliersRemoved := by
  unfold cleanAndInterpolateData
  dsimp only
  obtain ⟨hmap, hcount, hfresh, hndk⟩ := detectPhase_inv data hnd
  obtain ⟨ic, indk⟩ := interpPhase_count (detectPhase data).1
    (detectPhase data).2.1 (detectPhase data).2.2 0 hndk
  have hpart := entries_filter_partition
    ((interpPhase ((detectPhase data).1, (detectPhase data).2.1,
      (detectPhase data).2.2, 0)).2.1.map (·.2))
  have hlenmap : ((interpPhase ((detectPhase data).1, (detectPhase data).2.1,
      (detectPhase data).2.2, 0)).2.1.map (·.2)).length
      = (interpPhase ((detectPhase data).1, (detectPhase data).2.1,
        (detectPhase data).2.2, 0)).2.1.length := List.length_map _ _
  omega

theorem c2_audit_counts_witness :
    (stageOneOutlier.map Row.t).Nodup
    ∧ ((((cleanAndInterpolateData stageOneOutlier 70).2.1.filter
          (fun e => e.action = AuditAction.removed)).length : ℤ)
        + (((cleanAndInterpolateData stageOneOutlier 70).2.1.filter
          (fun e => e.action = AuditAction.interpolated)).length : ℤ))
      = (cleanAndInterpolateData stageOneOutlier 70).2.2.outliersRemoved :=
  ⟨by decide, c2_audit_counts stageOneOutlier 70 (by decide)⟩

/-- Keys never touched by the scanned rows survive a detection fold with
their entry intact. -/
theorem foldOk_mapGet (f : DetectState → Nat → DetectState) (c : Channel)
    (hf : StepOk f c) :
    ∀ (idxs : List Nat) (stage : List Row) (audit : AuditMap) (removed : ℤ)
      (k : AuditKey),
      (∀ j ∈ idxs, ∀ row : Row, stage[j]? = some row → (row.t, c) ≠ k) →
      mapGet (idxs.foldl f (stage, audit, removed)).2.1 k = mapGet audit k := by
  intro idxs
  induction idxs with
  | nil => intro stage audit removed k _; rfl
  | cons j idxs ih =>
    intro stage audit removed k hk
    rw [List.foldl_cons]
    rcases hf stage audit removed j with hid | ⟨row, x, entry, hrow, hx, heq⟩
    · rw [hid]
      exact ih stage audit removed k
        (fun j' hj' => hk j' (List.mem_cons_of_mem _ hj'))
    · rw [heq]
      have hjlt : j < stage.length := by
        by_contra hcc
        rw [List.getElem?_eq_none (by omega)] at hrow
        cases hrow
      have hk2 : ∀ j' ∈ idxs, ∀ row' : Row,
          (stage.set j (row.set c none))[j']? = some row' → (row'.t, c) ≠ k := by
        intro j' hj' row' hrow' hcon
        by_cases hjj : j = j'
        · subst hjj
          rw [List.getElem?_set, if_pos rfl, if_pos hjlt] at hrow'
          cases hrow'
          rw [Row.t_set] at hcon
          exact hk j (List.mem_cons_self j idxs) row hrow hcon
        · rw [List.getElem?_set, if_neg hjj] at hrow'
          exact hk j' (List.mem_cons_of_mem _ hj') row' hrow' hcon
      rw [ih _ _ _ k hk2]
      exact mapGet_set_ne audit (row.t, c) k entry
        (Ne.symm (hk j (List.mem_cons_self j idxs) row hrow))

/-- Effect of the 3SD scan fold at a scanned index holding an outlier: the
value is nulled and a REMOVED entry with the stage statistics is present
afterwards. -/
theorem scanFold_member (stageIdx : Nat) (col : Channel) (m v : ℚ) :
    ∀ (idxs : List Nat), idxs.Nodup →
    ∀ (stage : List Row) (audit : AuditMap) (removed : ℤ) (j : Nat),
      j ∈ idxs → (stage.map Row.t).Nodup →
    ∀ (row : Row), stage[j]? = some row →
    ∀ (x : ℚ), row.get col = some x → isOutlier m v x = true →
      ((idxs.foldl (scanStep stageIdx col m v) (stage, audit, removed)).1[j]?
        = some (row.set col none))
      ∧ (mapGet (idxs.foldl (scanStep stageIdx col m v)
            (stage, audit, removed)).2.1 (row.t, col)
        = some { time := row.t, column := col, originalValue := x,
                 reason := Reason.threeSD stageIdx m v,
                 action := AuditAction.removed }) := by
  intro idxs
  induction idxs with
  | nil =>
    intro _ stage audit removed j hj
    cases hj
  | cons j0 idxs ih =>
    intro hnd0 stage audit removed j hj hndT row hrow x hx hout
    rw [List.foldl_cons]
    by_cases hjj : j0 = j
    · subst hjj
      have hstep : scanStep stageIdx col m v (stage, audit, removed) j0
          = (stage.set j0 (row.set col none),
             mapSet audit (row.t, col)
               { time := row.t, column := col, originalValue := x,
                 reason := Reason.threeSD stageIdx m v,
                 action := AuditAction.removed },
             removed + 1) := by
        unfold scanStep
        dsimp only
        rw [hrow]
        dsimp only
        rw [hx]
        dsimp only
        rw [if_pos hout]
      rw [hstep]
      have hnotmem : j0 ∉ idxs := (List.nodup_cons.1 hnd0).1
      have hjlt : j0 < stage.length := by
        by_contra hc
        rw [List.getElem?_eq_none (by omega)] at hrow
        cases hrow
      have hcond : ∀ j' ∈ idxs, ∀ row' : Row,
          (stage.set j0 (row.set col none))[j']? = some row' →
          (row'.t, col) ≠ (row.t, col) := by
        intro j' hj' row' hrow' hpair
        have hne : j' ≠ j0 := fun h => hnotmem (h ▸ hj')
        rw [List.getElem?_set, if_neg (fun h => hne h.symm)] at hrow'
        exact nodup_t_ne stage hndT j' j0 row' row hrow' hrow hne
          (Prod.ext_iff.1 hpair).1
      constructor
      · obtain ⟨h1, h2, h3, h4, h5, h6, h7⟩ := foldOk _ col
          (scanStep_stepOk stageIdx col m v) idxs
          (stage.set j0 (row.set col none))
          (mapSet audit (row.t, col)
            { time := row.t, column := col, originalValue := x,
              reason := Reason.threeSD stageIdx m v,
              action := AuditAction.removed })
          (removed + 1)
        rw [h4 j0 hnotmem, List.getElem?_set, if_pos rfl, if_pos hjlt]
      · rw [foldOk_mapGet _ col (scanStep_stepOk stageIdx col m v) idxs
          (stage.set j0 (row.set col none))
          (mapSet audit (row.t, col)
            { time := row.t, column := col, originalValue := x,
              reason := Reason.threeSD stageIdx m v,
              action := AuditAction.removed })
          (removed + 1) (row.t, col) hcond]
        exact mapGet_set_self audit (row.t, col) _
    · have hjmem : j ∈ idxs := by
        rcases List.mem_cons.1 hj with h | h
        · exact absurd h.symm hjj
        · exact h
      rcases scanStep_stepOk stageIdx col m v stage audit removed j0 with
        hid | ⟨row0, x0, entry0, hrow0, hx0, heq0⟩
      · rw [hid]
        exact ih (List.nodup_cons.1 hnd0).2 stage audit removed j hjmem hndT
          row hrow x hx hout
      · rw [heq0]
        have hrow2 : (stage.set j0 (row0.set col none))[j]? = some row := by
          rw [List.getElem?_set, if_neg hjj]
          exact hrow
        have hndT2 : ((stage.set j0 (row0.set col none)).map Row.t).Nodup := by
          rw [map_t_set_of_t_eq stage j0 row0 _ hrow0 (Row.t_set row0 col none)]
          exact hndT
        exact ih (List.nodup_cons.1 hnd0).2 _ _ _ j hjmem hndT2 row hrow2
          x hx hout

/-- C1: in the per-stage 3SD pass the statistics skip the first 3 rows, but
the scan also starts at row 3: a value in rows 0-2 is never nulled, while a
band-violating value at a scanned index is nulled and logged as REMOVED with
the stage index and statistics. -/
theorem c1_band_scan (stageIdx : Nat) (col : Channel) (stage : List Row)
    (audit : AuditMap) (removed : ℤ)
    (hnd : (stage.map Row.t).Nodup)
    (hvals : ¬ ((stage.drop 3).filterMap (fun r => r.get col)).length < 2)
    (j : Nat) (row : Row) (hj : stage[j]? = some row)
    (x : ℚ) (hx : row.get col = some x) :
    (j < 3 → (detectCol stageIdx col (stage, audit, removed)).1[j]? = some row)
    ∧ (3 ≤ j →
       isOutlier (listMean ((stage.drop 3).filterMap (fun r => r.get col)))
           (popVariance ((stage.drop 3).filterMap (fun r => r.get col)))
           x = true →
       ((detectCol stageIdx col (stage, audit, removed)).1[j]?
           = some (row.set col none))
       ∧ (mapGet (detectCol stageIdx col (stage, audit, removed)).2.1
            (row.t, col)
           = some { time := row.t, column := col, originalValue := x,
                    reason := Reason.threeSD stageIdx
                      (listMean ((stage.drop 3).filterMap
                        (fun r => r.get col)))
                      (popVariance ((stage.drop 3).filterMap
                        (fun r => r.get col))),
                    action := AuditAction.removed })) := by
  have hjlt : j < stage.length := by
    by_contra hc
    rw [List.getElem?_eq_none (by omega)] at hj
    cases hj
  unfold detectCol
  dsimp only
  rw [if_neg hvals]
  constructor
  · intro hj3
    obtain ⟨h1, h2, h3, h4, h5, h6, h7⟩ := foldOk _ col
      (scanStep_stepOk stageIdx col
        (listMean ((stage.drop 3).filterMap (fun r => r.get col)))
        (popVariance ((stage.drop 3).filterMap (fun r => r.get col))))
      (List.range' 3 (stage.length - 3)) stage audit removed
    rw [h4 j (by
      intro hmem
      rw [List.mem_range'_1] at hmem
      omega)]
    exact hj
  · intro hj3 hout
    have hjmem : j ∈ List.range' 3 (stage.length - 3) := by
      rw [List.mem_range'_1]
      omega
    exact scanFold_member stageIdx col _ _ (List.range' 3 (stage.length - 3))
      (List.nodup_range' _ _) stage audit removed j hjmem hnd row hj x hx hout

theorem c1_band_scan_witness :
    ((stageOneOutlier.map Row.t).Nodup
      ∧ ¬ ((stageOneOutlier.drop 3).filterMap
          (fun r => r.get Channel.vo2)).length < 2
      ∧ stageOneOutlier[10]? = some (stageOneOutlier.getD 10 defaultRow)
      ∧ (stageOneOutlier.getD 10 defaultRow).get Channel.vo2 = some 3)
    ∧ (((detectCol 1 Channel.vo2 (stageOneOutlier, [], 0)).1[10]?
          = some ((stageOneOutlier.getD 10 defaultRow).set Channel.vo2 none))
        ∧ (mapGet (detectCol 1 Channel.vo2 (stageOneOutlier, [], 0)).2.1
            ((stageOneOutlier.getD 10 defaultRow).t, Channel.vo2)
          = some { time := (stageOneOutlier.getD 10 defaultRow).t,
                   column := Channel.vo2, originalValue := 3,
                   reason := Reason.threeSD 1
                     (listMean ((stageOneOutlier.drop 3).filterMap
                       (fun r => r.get Channel.vo2)))
                     (popVariance ((stageOneOutlier.drop 3).filterMap
                       (fun r => r.get Channel.vo2))),
                   action := AuditAction.removed })) :=
  ⟨⟨by decide, by decide, by decide, by decide⟩,
   (c1_band_scan 1 Channel.vo2 stageOneOutlier [] 0 (by decide) (by decide) 10
     (stageOneOutlier.getD 10 defaultRow) (by decide) 3 (by decide)).2
     (by decide) (by decide)⟩
